import Mathlib

/-!
# Verification of the figure-to-slide assignment engine

Shallow embedding of `src/modules/intelligent_figure_matcher.py`
(class `IntelligentFigureMatcher`) and proofs about the claims of the
specification.

Modelling conventions:

* Python dicts for slides and figures become structures with `Option`-typed
  fields; a `none` field models an absent key, and `.getD` models
  `dict.get(key, default)`.  A direct `dict[key]` access on an optional field
  is fallible and is modelled in the `Option` monad: `optimize_figure_assignment`
  returns `none` exactly when the Python code would raise a `KeyError`.
* Python floats are modelled as exact rationals (`ℚ`); all constants in the
  source are short decimal literals.
* Text operations (`str.lower`, `str.upper`, `in`, `str.split`, and the three
  regular expressions of `_extract_important_terms`) are modelled on ASCII
  text, which is the domain the matcher works on.
* The compatibility matrix computed at lines 241-254 of the source is used for
  logging only and has no effect on the returned slides (every field it reads,
  `figure['id']`, is required), so it does not appear in the embedding.
-/

/-! ## Basic string operations -/

/-- ASCII lower-casing, modelling Python `str.lower()`. -/
def lowerStr (s : String) : String := String.mk (s.data.map Char.toLower)

/-- ASCII upper-casing, modelling Python `str.upper()`. -/
def upperStr (s : String) : String := String.mk (s.data.map Char.toUpper)

/-- Test whether `p` occurs in `l` as a contiguous sublist. -/
def containsAux (p : List Char) : List Char → Bool
  | [] => p.isEmpty
  | c :: t => p.isPrefixOf (c :: t) || containsAux p t

/-- Python's substring test `p in s`. -/
def containsStr (s p : String) : Bool := containsAux p.data s.data

/-- Split a character list at the characters satisfying `p`, keeping empty
fields (the behaviour of Python `str.split(sep)` and of `re`-style field
splitting). -/
def splitChars (p : Char → Bool) : List Char → List (List Char)
  | [] => [[]]
  | c :: rest =>
    match splitChars p rest with
    | [] => [[]]
    | g :: gs => if p c then [] :: g :: gs else (c :: g) :: gs

/-- Python `' '.join(l)`. -/
def joinSpace : List String → String
  | [] => ""
  | [x] => x
  | x :: y :: xs => x ++ " " ++ joinSpace (y :: xs)

/-- A regex word character (`\w`) over ASCII: letters, digits, underscore. -/
def wordChar (c : Char) : Bool := c.isAlphanum || c == '_'

/-- Maximal runs of word characters of `s`: the matches of `\b\w+\b`. -/
def wordRuns (s : String) : List String :=
  ((splitChars (fun c => !wordChar c) s.data).map String.mk).filter (fun w => w ≠ "")

/-- Python `str.split()` (split on whitespace, dropping empty fields). -/
def pySplitWords (s : String) : List String :=
  ((splitChars Char.isWhitespace s.data).map String.mk).filter (fun w => w ≠ "")

/-! ## Data model

`Slide` input objects carry `title`/`content` plus the two assignment fields
that `optimize_figure_assignment` reads and writes; `Figure` objects carry a
required `id` and the four optional text fields. -/

/-- The `figure_reference` dict written by the assigner: lines 274-279 and
313-318 of the source. -/
structure FigRef where
  id : String
  caption : String
  filename : String
  path : String
deriving DecidableEq, Repr

/-- A slide dict, as read by the matcher. -/
structure Slide where
  title : Option String
  content : Option (List String)
  includes_figure : Option Bool
  figure_reference : Option FigRef
deriving DecidableEq, Repr

/-- A figure dict, as read by the matcher: `id` is required, the rest are
optional (absent key = `none`). -/
structure Figure where
  id : String
  caption : Option String
  description : Option String
  filename : Option String
  path : Option String
deriving DecidableEq, Repr

/-- Lower-cased `f"{title} {content}"`, with `content` joined by spaces:
lines 54-56 and 97-99 of the source. -/
def slideText (s : Slide) : String :=
  lowerStr (s.title.getD "") ++ " " ++ lowerStr (joinSpace (s.content.getD []))

/-- Lower-cased `f"{caption} {description}"`: lines 68-70, 101-103, 218-220. -/
def figText (f : Figure) : String :=
  lowerStr (f.caption.getD "") ++ " " ++ lowerStr (f.description.getD "")

/-! ## Keyword tables (lines 20-50 of the source) -/

/-- `self.slide_type_keywords`. -/
def slide_type_keywords : List (String × List String) :=
  [("background", ["background", "introduction", "motivation", "problem", "challenge"]),
   ("method", ["methodology", "approach", "method", "algorithm", "architecture", "framework"]),
   ("result", ["result", "experiment", "evaluation", "performance", "comparison"]),
   ("ablation", ["ablation", "analysis", "component", "impact"]),
   ("conclusion", ["conclusion", "future", "limitation", "summary"])]

/-- `self.figure_type_keywords`: name, keywords, priority. -/
def figure_type_keywords : List (String × List String × ℕ) :=
  [("method_architecture",
     (["architecture", "framework", "overview", "system", "model",
       "illustration of our proposed", "cross-modal", "teacher model", "style-based"], 5)),
   ("results_performance",
     (["comparison", "performance", "result", "evaluation", "quantitative", "qualitative"], 4)),
   ("method_detail",
     (["visualization", "attention", "map", "process", "mechanism", "detail"], 3)),
   ("results_examples",
     (["example", "generated", "output", "synthesis", "transfer"], 2)),
   ("problem_illustration",
     (["overfitting", "artifact", "problem", "issue", "challenge"], 1))]

/-- Number of keywords of `kws` occurring in `text`:
`sum(1 for keyword in keywords if keyword in text)`. -/
def keywordCount (kws : List String) (text : String) : ℕ :=
  (kws.filter (fun k => containsStr text k)).length

/-! ## classify_slide_type (lines 52-64) -/

/-- Python `max(scores, key=scores.get)`: the first pair attaining the maximal
count (`max` keeps the current item unless a later one is strictly greater). -/
def argmaxFirst (l : List (String × ℕ)) : Option (String × ℕ) :=
  l.foldl (fun acc p =>
    match acc with
    | none => some p
    | some q => if q.2 < p.2 then some p else some q) none

/-- `classify_slide_type`: count keyword hits per tag (keeping only positive
counts, in declaration order, like the Python dict), return the first maximal
tag, defaulting to `"method"`. -/
def classify_slide_type (s : Slide) : String :=
  let text := slideText s
  let scores := slide_type_keywords.filterMap (fun p =>
    let c := keywordCount p.2 text
    if 0 < c then some (p.1, c) else none)
  match argmaxFirst scores with
  | some q => q.1
  | none => "method"

/-! ## classify_figure_type (lines 66-93) -/

/-- One iteration of the `classify_figure_type` loop.  The accumulator is
`(best_type, best_score, best_priority)`, initially `(none, 0, 0)`. -/
def figStep (text : String) (acc : Option String × ℚ × ℕ) (cfg : String × List String × ℕ) :
    Option String × ℚ × ℕ :=
  let kw := keywordCount cfg.2.1 text
  if 0 < kw then
    let total : ℚ := (kw : ℚ) + (cfg.2.2 : ℚ) * 0.1
    if acc.2.1 < total ∨ (total = acc.2.1 ∧ acc.2.2 < cfg.2.2) then (some cfg.1, total, cfg.2.2)
    else acc
  else acc

/-- `classify_figure_type`: best composite score with priority tie-break,
confidence `min(best_score / 3, 1)`, defaulting to `("method_detail", 0)`. -/
def classify_figure_type (f : Figure) : String × ℚ :=
  let text := figText f
  let r := figure_type_keywords.foldl (figStep text) (none, 0, 0)
  (r.1.getD "method_detail", if 0 < r.2.1 then min (r.2.1 / 3) 1 else 0)

/-! ## _extract_important_terms (lines 169-212) -/

/-- The stop-word set of `_extract_important_terms`. -/
def stop_words : List String :=
  ["the", "a", "an", "and", "or", "but", "in", "on", "at", "to", "for", "of", "with", "by",
   "is", "are", "was", "were", "be", "been", "being", "have", "has", "had", "do", "does", "did",
   "will", "would", "could", "should", "may", "might", "can", "this", "that", "these", "those",
   "we", "our", "use", "using", "show", "shows", "paper", "figure", "table", "results", "method"]

/-- The fixed domain vocabulary of `_extract_important_terms`. -/
def domain_keywords : List String :=
  ["algorithm", "model", "architecture", "framework", "network", "learning", "training",
   "optimization", "performance", "accuracy", "evaluation", "dataset", "benchmark",
   "attention", "transformer", "convolution", "neural", "deep", "machine", "artificial",
   "classification", "regression", "clustering", "segmentation", "detection", "recognition",
   "feature", "embedding", "representation", "encoding", "decoding", "generation",
   "medical", "clinical", "diagnosis", "treatment", "patient", "healthcare", "therapy",
   "agent", "workflow", "system", "pipeline", "process", "methodology", "approach"]

/-- Matches of `\b[A-Z]{2,6}\b` in `text.upper()`, lower-cased.  On the
upper-cased text these are exactly the maximal word-character runs of length
2 to 6 made of letters only. -/
def acronymsOf (text : String) : List String :=
  ((wordRuns (upperStr text)).filter
    (fun w => decide (2 ≤ w.length) && decide (w.length ≤ 6) && w.data.all Char.isUpper)).map
    lowerStr

/-- Compound matches of `\b\w+[-]\w+(?:[-]\w+)*\b` inside one maximal run of
word/hyphen characters: split the run on `-` and join each maximal group of
two or more consecutive nonempty segments back with `-`. -/
def compoundsOfRun (r : String) : List String :=
  (((r.data.splitOn '-').splitOn []).filterMap (fun g =>
    if 2 ≤ g.length then some (String.mk (List.intercalate ['-'] g)) else none))

/-- Maximal runs of word characters and hyphens of `s`. -/
def hyphenRuns (s : String) : List String :=
  ((splitChars (fun c => !(wordChar c || c == '-')) s.data).map String.mk).filter
    (fun w => w ≠ "")

/-- All matches of `\b\w+[-]\w+(?:[-]\w+)*\b` in `text`, lower-cased. -/
def compoundsOf (text : String) : List String :=
  (((hyphenRuns text).map compoundsOfRun).flatten).map lowerStr

/-- Words of `text.lower()` of length at least 4 found in the domain
vocabulary. -/
def domainWordsOf (text : String) : List String :=
  (wordRuns (lowerStr text)).filter (fun w => decide (4 ≤ w.length) && domain_keywords.contains w)

/-- `_extract_important_terms`: the union of acronyms, hyphenated compounds
and domain words, minus the stop words, as a set. -/
def extract_important_terms (text : String) : Finset String :=
  (acronymsOf text ++ compoundsOf text ++ domainWordsOf text).toFinset \ stop_words.toFinset

/-! ## calculate_compatibility_score (lines 95-167) -/

/-- The `semantic_exclusions` triples (slide keyword, figure keyword 1,
figure keyword 2). -/
def semantic_exclusions : List (String × String × String) :=
  [("ablation", "workflow", "evolution"),
   ("ablation", "iteration", "process"),
   ("ablation", "over", "iterations")]

/-- The `type_compatibility` table, with default value `0.05`. -/
def type_compatibility (p : String × String) : ℚ :=
  if p = ("method", "method_architecture") then 0.3
  else if p = ("method", "method_detail") then 0.25
  else if p = ("result", "results_performance") then 0.3
  else if p = ("result", "results_examples") then 0.25
  else if p = ("background", "problem_illustration") then 0.2
  else if p = ("ablation", "results_performance") then 0.15
  else 0.05

/-- The stop words removed from the generic word overlap (line 156). -/
def overlapStopWords : List String :=
  ["the", "a", "an", "and", "or", "but", "in", "on", "at", "to", "for", "of", "with", "by"]

/-- Number of matching semantic-exclusion triples for the pair. -/
def exclusionCount (slide_text figure_text : String) : ℕ :=
  (semantic_exclusions.filter (fun t =>
    containsStr slide_text t.1 && containsStr figure_text t.2.1 &&
      containsStr figure_text t.2.2)).length

/-- The semantic term-overlap contribution (lines 109-117). -/
def semanticScore (slide_text figure_text : String) : ℚ :=
  let common := extract_important_terms slide_text ∩ extract_important_terms figure_text
  if common.Nonempty then min ((common.card : ℚ) * 0.15) 0.4 else 0

/-- The generic word-overlap contribution (lines 152-160). -/
def overlapScore (slide_text figure_text : String) : ℚ :=
  let significant := ((pySplitWords slide_text).toFinset ∩ (pySplitWords figure_text).toFinset) \
    overlapStopWords.toFinset
  if significant.Nonempty then min ((significant.card : ℚ) * 0.05) 0.2 else 0

/-- The architecture bonus (lines 162-165). -/
def archBonus (slide_type : String) (figure_text : String) : ℚ :=
  if (containsStr figure_text "architecture" || containsStr figure_text "framework" ||
      containsStr figure_text "overview") && slide_type == "method" then 0.1 else 0

/-- `calculate_compatibility_score`: sum of the four contributions minus
`0.3` per matching exclusion triple, clamped to at most `1` (not floored
at `0`). -/
def calculate_compatibility_score (s : Slide) (f : Figure) : ℚ :=
  let slide_text := slideText s
  let figure_text := figText f
  let ft := classify_figure_type f
  min (semanticScore slide_text figure_text
        - 0.3 * (exclusionCount slide_text figure_text : ℚ)
        + type_compatibility (classify_slide_type s, ft.1) * ft.2
        + overlapScore slide_text figure_text
        + archBonus (classify_slide_type s) figure_text) 1

/-! ## detect_architecture_figures (lines 214-226) -/

/-- The architecture keywords of `detect_architecture_figures`. -/
def arch_keywords : List String :=
  ["architecture", "framework", "overview", "system", "illustration of our proposed"]

/-- `detect_architecture_figures`: the stable subsequence of figures whose
caption+description text mentions an architecture keyword. -/
def detect_architecture_figures (figures : List Figure) : List Figure :=
  figures.filter (fun f => arch_keywords.any (fun k => containsStr (figText f) k))

/-! ## optimize_figure_assignment (lines 228-325) -/

/-- `MIN_COMPATIBILITY_SCORE` (line 284). -/
def MIN_COMPATIBILITY_SCORE : ℚ := 0.25

/-- Replace the element at index `i` (the Python `optimized_slides[i][...] = ...`
updates). -/
def updateAt {α : Type} : ℕ → (α → α) → List α → List α
  | _, _, [] => []
  | 0, f, x :: xs => f x :: xs
  | n + 1, f, x :: xs => x :: updateAt n f xs

/-- Write the assignment fields of a slide (lines 273-279 / 312-318). -/
def assignFig (fr : FigRef) (s : Slide) : Slide :=
  { s with includes_figure := some true, figure_reference := some fr }

/-- One step of the greedy best-slide search: replace the accumulator when the
candidate's score is strictly greater. -/
def gstep (acc : Option ℕ × ℚ) (p : ℕ × ℚ) : Option ℕ × ℚ :=
  if acc.2 < p.2 then (some p.1, p.2) else acc

/-- The greedy first-argmax over scored candidates, starting from threshold
`init` and no chosen index. -/
def greedyMax (cands : List (ℕ × ℚ)) (init : ℚ) : Option ℕ × ℚ :=
  cands.foldl gstep (none, init)

/-- Phase-1 slide search (lines 261-270): scan all slides, consider those
classified `"method"`, update on `score > best_score and arch_fig['id'] not in
used_figures`; initial best score `0`. -/
def selectArchSlide (slides : List Slide) (fig : Figure) (used : List String) : Option ℕ × ℚ :=
  (slides.enum).foldl (fun acc p =>
    if classify_slide_type p.2 = "method" then
      (if acc.2 < calculate_compatibility_score p.2 fig ∧ fig.id ∉ used then
        (some p.1, calculate_compatibility_score p.2 fig)
      else acc)
    else acc) (none, 0)

/-- Phase-2 slide search (lines 297-308): skip slides that already have a
figure, update on `score > best_score`; initial best score
`MIN_COMPATIBILITY_SCORE`. -/
def selectSlideForFigure (slides : List Slide) (fig : Figure) : Option ℕ × ℚ :=
  (slides.enum).foldl (fun acc p =>
    if p.2.includes_figure.getD false then acc
    else gstep acc (p.1, calculate_compatibility_score p.2 fig)) (none, MIN_COMPATIBILITY_SCORE)

/-- One iteration of the phase-1 loop (lines 260-281) for one architecture
figure.  Returns `none` for the `KeyError` raised by `arch_fig['caption']`
when the selected figure has no caption. -/
def phase1Step (fig : Figure) (st : List Slide × List String) :
    Option (List Slide × List String) :=
  match selectArchSlide st.1 fig st.2 with
  | (none, _) => some st
  | (some i, _) =>
    match fig.caption with
    | none => none
    | some cap =>
      some (updateAt i (assignFig ⟨fig.id, cap, fig.filename.getD "", fig.path.getD ""⟩) st.1,
        fig.id :: st.2)

/-- The reset between the phases (lines 287-292): clear the assignment of
every slide whose current figure id is not in `used_figures`. -/
def resetStep (used : List String) (s : Slide) : Slide :=
  let currentId := match s.figure_reference with
    | some r => r.id
    | none => ""
  if currentId ∈ used then s
  else { s with includes_figure := some false, figure_reference := none }

/-- One iteration of the phase-2 loop (lines 295-322) for one figure.
Returns `none` for the `KeyError` raised by `figure['caption']` when the
selected figure has no caption. -/
def phase2Step (fig : Figure) (st : List Slide × List String) :
    Option (List Slide × List String) :=
  if fig.id ∈ st.2 then some st
  else
    match selectSlideForFigure st.1 fig with
    | (none, _) => some st
    | (some i, _) =>
      match fig.caption with
      | none => none
      | some cap =>
        some (updateAt i (assignFig ⟨fig.id, cap, fig.filename.getD "", fig.path.getD ""⟩) st.1,
          fig.id :: st.2)

/-- `optimize_figure_assignment`: empty-figures no-op, then phase 1 over the
architecture figures, the reset, and phase 2 over all figures.  `none` models
an uncaught `KeyError`. -/
def optimize_figure_assignment (slides : List Slide) (figures : List Figure) :
    Option (List Slide) :=
  if figures.isEmpty then some slides
  else do
    let st1 ← (detect_architecture_figures figures).foldlM (fun st fig => phase1Step fig st)
      (slides, ([] : List String))
    let slides1 := st1.1.map (resetStep st1.2)
    let st2 ← figures.foldlM (fun st fig => phase2Step fig st) (slides1, st1.2)
    pure st2.1

/-- The figure ids referenced by the slides of a list, in order. -/
def refIds (slides : List Slide) : List String :=
  slides.filterMap (fun s => s.figure_reference.map FigRef.id)


/-! ## Generic lemmas about the greedy selection folds -/

/-- Characterization of the greedy first-argmax fold: either no candidate beats
the accumulator and it is returned unchanged, or the result is the first
candidate attaining the maximum value, every earlier candidate being strictly
smaller and every later one no larger. -/
lemma gstep_fold_spec (cands : List (ℕ × ℚ)) :
    ∀ a : Option ℕ × ℚ,
      (cands.foldl gstep a = a ∧ ∀ p ∈ cands, p.2 ≤ a.2) ∨
      (∃ i b l1 l2, cands.foldl gstep a = (some i, b) ∧ cands = l1 ++ (i, b) :: l2 ∧
        a.2 < b ∧ (∀ p ∈ l1, p.2 < b) ∧ (∀ p ∈ l2, p.2 ≤ b)) := by
  induction cands with
  | nil => intro a; left; simp
  | cons p rest ih =>
    intro a
    rw [List.foldl_cons]
    by_cases h : a.2 < p.2
    · have hg : gstep a p = (some p.1, p.2) := by simp [gstep, h]
      rw [hg]
      rcases ih (some p.1, p.2) with ⟨heq, hle⟩ | ⟨i, b, l1, l2, heq, hsplit, hlt, h1, h2⟩
      · right
        exact ⟨p.1, p.2, [], rest, by simpa using heq, by simp, h, by simp, by simpa using hle⟩
      · right
        refine ⟨i, b, p :: l1, l2, heq, by simp [hsplit], lt_trans h (by simpa using hlt), ?_, h2⟩
        intro q hq
        rcases List.mem_cons.1 hq with rfl | hq
        · exact by simpa using hlt
        · exact h1 q hq
    · have hg : gstep a p = a := by simp [gstep, h]
      rw [hg]
      rcases ih a with ⟨heq, hle⟩ | ⟨i, b, l1, l2, heq, hsplit, hlt, h1, h2⟩
      · left
        refine ⟨heq, ?_⟩
        intro q hq
        rcases List.mem_cons.1 hq with rfl | hq
        · exact le_of_not_lt h
        · exact hle q hq
      · right
        refine ⟨i, b, p :: l1, l2, heq, by simp [hsplit], hlt, ?_, h2⟩
        intro q hq
        rcases List.mem_cons.1 hq with rfl | hq
        · exact lt_of_le_of_lt (le_of_not_lt h) hlt
        · exact h1 q hq

/-- If no candidate exceeds the threshold, the greedy search selects nothing. -/
lemma greedyMax_eq_of_all_le {cands : List (ℕ × ℚ)} {init : ℚ}
    (h : ∀ p ∈ cands, p.2 ≤ init) : greedyMax cands init = (none, init) := by
  rcases gstep_fold_spec cands (none, init) with ⟨heq, _⟩ | ⟨i, b, l1, l2, _, hsplit, hlt, _, _⟩
  · exact heq
  · exfalso
    have : (i, b) ∈ cands := by rw [hsplit]; simp
    exact absurd (h _ this) (not_le.2 hlt)

/-- If the greedy search selects index `i` with value `b`, then `b` exceeds
the threshold, `(i, b)` is a candidate, every candidate before it is strictly
below `b` and every one after it is at most `b`. -/
lemma greedyMax_some {cands : List (ℕ × ℚ)} {init : ℚ} {i : ℕ} {b : ℚ}
    (h : greedyMax cands init = (some i, b)) :
    init < b ∧ ∃ l1 l2, cands = l1 ++ (i, b) :: l2 ∧
      (∀ p ∈ l1, p.2 < b) ∧ (∀ p ∈ l2, p.2 ≤ b) := by
  rcases gstep_fold_spec cands (none, init) with ⟨heq, _⟩ | ⟨i', b', l1, l2, heq, hsplit, hlt, h1, h2⟩
  · rw [greedyMax] at h
    rw [heq] at h
    exact absurd h (by simp)
  · rw [greedyMax] at h
    rw [heq] at h
    have hi : i' = i := by
      have h1 := congrArg Prod.fst h
      simpa using h1
    have hb : b' = b := congrArg Prod.snd h
    subst hi hb
    exact ⟨hlt, l1, l2, hsplit, h1, h2⟩

/-! ## The candidate lists scanned by the two phases -/

/-- The phase-1 candidates for an architecture figure: every slide classified
`"method"` (regardless of any existing assignment), with its index and score. -/
def methodCands (slides : List Slide) (fig : Figure) : List (ℕ × ℚ) :=
  ((slides.enum).filter (fun p => decide (classify_slide_type p.2 = "method"))).map
    (fun p => (p.1, calculate_compatibility_score p.2 fig))

/-- The phase-2 candidates for a figure: every slide without a figure, with
its index and score. -/
def eligibleCands (slides : List Slide) (fig : Figure) : List (ℕ × ℚ) :=
  ((slides.enum).filter (fun p => !p.2.includes_figure.getD false)).map
    (fun p => (p.1, calculate_compatibility_score p.2 fig))

/-- A fold that skips ineligible elements and greedily updates on the rest is
the greedy fold over the filtered, scored candidate list. -/
lemma foldl_if_skip {α : Type} (e : α → Bool) (sc : α → ℕ × ℚ) :
    ∀ (l : List α) (a : Option ℕ × ℚ),
      l.foldl (fun acc p => if e p then gstep acc (sc p) else acc) a =
        ((l.filter e).map sc).foldl gstep a := by
  intro l
  induction l with
  | nil => intro a; rfl
  | cons p rest ih =>
    intro a
    rw [List.foldl_cons, List.filter_cons]
    cases h : e p
    · simp only [h, Bool.false_eq_true, if_false]
      exact ih a
    · simp only [h, if_true, List.map_cons, List.foldl_cons]
      exact ih _

/-- When the figure is not yet used, the phase-1 search is the greedy
first-argmax over the method-typed slides with threshold `0`. -/
lemma selectArchSlide_eq (slides : List Slide) (fig : Figure) (used : List String)
    (hid : fig.id ∉ used) :
    selectArchSlide slides fig used = greedyMax (methodCands slides fig) 0 := by
  unfold selectArchSlide greedyMax methodCands
  have hfun : (fun (acc : Option ℕ × ℚ) (p : ℕ × Slide) =>
      if classify_slide_type p.2 = "method" then
        (if acc.2 < calculate_compatibility_score p.2 fig ∧ fig.id ∉ used then
          (some p.1, calculate_compatibility_score p.2 fig)
        else acc)
      else acc) = (fun acc p =>
      if decide (classify_slide_type p.2 = "method") then
        gstep acc (p.1, calculate_compatibility_score p.2 fig)
      else acc) := by
    funext acc p
    by_cases hm : classify_slide_type p.2 = "method" <;> simp [hm, gstep, hid]
  rw [hfun, foldl_if_skip]

/-- When the figure is already used, the phase-1 search selects nothing. -/
lemma selectArchSlide_used (slides : List Slide) (fig : Figure) (used : List String)
    (hid : fig.id ∈ used) :
    selectArchSlide slides fig used = (none, 0) := by
  unfold selectArchSlide
  generalize slides.enum = l
  induction l with
  | nil => rfl
  | cons p rest ih =>
    rw [List.foldl_cons]
    have h1 : ∀ a : Option ℕ × ℚ,
        (if classify_slide_type p.2 = "method" then
          (if a.2 < calculate_compatibility_score p.2 fig ∧ fig.id ∉ used then
            (some p.1, calculate_compatibility_score p.2 fig)
          else a)
        else a) = a := by
      intro a
      by_cases hm : classify_slide_type p.2 = "method" <;> simp [hm, hid]
    rw [h1]
    exact ih

/-- The phase-2 search is the greedy first-argmax over the unassigned slides
with threshold `MIN_COMPATIBILITY_SCORE`. -/
lemma selectSlideForFigure_eq (slides : List Slide) (fig : Figure) :
    selectSlideForFigure slides fig =
      greedyMax (eligibleCands slides fig) MIN_COMPATIBILITY_SCORE := by
  unfold selectSlideForFigure greedyMax eligibleCands
  have hfun : (fun (acc : Option ℕ × ℚ) (p : ℕ × Slide) =>
      if p.2.includes_figure.getD false then acc
      else gstep acc (p.1, calculate_compatibility_score p.2 fig)) = (fun acc p =>
      if !p.2.includes_figure.getD false then
        gstep acc (p.1, calculate_compatibility_score p.2 fig)
      else acc) := by
    funext acc p
    cases h : p.2.includes_figure.getD false <;> simp [h]
  rw [hfun, foldl_if_skip]

/-- Membership in the phase-2 candidate list. -/
lemma mem_eligibleCands {slides : List Slide} {fig : Figure} {i : ℕ} {b : ℚ} :
    (i, b) ∈ eligibleCands slides fig ↔
      ∃ h : i < slides.length, ¬(slides.get ⟨i, h⟩).includes_figure.getD false ∧
        calculate_compatibility_score (slides.get ⟨i, h⟩) fig = b := by
  unfold eligibleCands
  constructor
  · intro hmem
    rcases List.mem_map.1 hmem with ⟨p, hp, heq⟩
    rcases List.mem_filter.1 hp with ⟨henum, helig⟩
    have hi : p.1 = i := congrArg Prod.fst heq
    have hb : calculate_compatibility_score p.2 fig = b := congrArg Prod.snd heq
    have hget := List.mem_enum_iff_getElem?.1 henum
    rw [hi] at hget
    have hlen : i < slides.length := by
      rcases List.getElem?_eq_some.1 hget with ⟨h, _⟩
      exact h
    refine ⟨hlen, ?_, ?_⟩
    · have : slides[i] = p.2 := by
        rcases List.getElem?_eq_some.1 hget with ⟨h, he⟩
        exact he
      rw [List.get_eq_getElem, this]
      simpa using helig
    · have : slides[i] = p.2 := by
        rcases List.getElem?_eq_some.1 hget with ⟨h, he⟩
        exact he
      rw [List.get_eq_getElem, this, hb]
  · rintro ⟨h, helig, hscore⟩
    simp only [List.get_eq_getElem] at helig hscore
    apply List.mem_map.2
    refine ⟨(i, slides[i]), ?_, ?_⟩
    · apply List.mem_filter.2
      refine ⟨List.mem_enum_iff_getElem?.2 ?_, by simpa using helig⟩
      simp [List.getElem?_eq_getElem h]
    · simp [hscore]

/-- Membership in the phase-1 candidate list. -/
lemma mem_methodCands {slides : List Slide} {fig : Figure} {i : ℕ} {b : ℚ} :
    (i, b) ∈ methodCands slides fig ↔
      ∃ h : i < slides.length, classify_slide_type (slides.get ⟨i, h⟩) = "method" ∧
        calculate_compatibility_score (slides.get ⟨i, h⟩) fig = b := by
  unfold methodCands
  constructor
  · intro hmem
    rcases List.mem_map.1 hmem with ⟨p, hp, heq⟩
    rcases List.mem_filter.1 hp with ⟨henum, helig⟩
    have hi : p.1 = i := congrArg Prod.fst heq
    have hb : calculate_compatibility_score p.2 fig = b := congrArg Prod.snd heq
    have hget := List.mem_enum_iff_getElem?.1 henum
    rw [hi] at hget
    rcases List.getElem?_eq_some.1 hget with ⟨hlen, he⟩
    refine ⟨hlen, ?_, ?_⟩
    · rw [List.get_eq_getElem, he]
      simpa using helig
    · rw [List.get_eq_getElem, he, hb]
  · rintro ⟨h, helig, hscore⟩
    simp only [List.get_eq_getElem] at helig hscore
    apply List.mem_map.2
    refine ⟨(i, slides[i]), ?_, ?_⟩
    · apply List.mem_filter.2
      refine ⟨List.mem_enum_iff_getElem?.2 ?_, by simpa using helig⟩
      simp [List.getElem?_eq_getElem h]
    · simp [hscore]

/-- The indices of an enumerated list are strictly increasing. -/
lemma enum_pairwise_fst {α : Type} (l : List α) :
    l.enum.Pairwise (fun p q => p.1 < q.1) := by
  have h := List.pairwise_lt_range l.length
  rw [← List.enum_map_fst l, List.pairwise_map] at h
  exact h

/-- The candidate indices of the phase-2 search are strictly increasing. -/
lemma eligibleCands_pairwise (slides : List Slide) (fig : Figure) :
    (eligibleCands slides fig).Pairwise (fun p q => p.1 < q.1) := by
  unfold eligibleCands
  rw [List.pairwise_map]
  exact List.Pairwise.filter _ (enum_pairwise_fst slides)

/-- The candidate indices of the phase-1 search are strictly increasing. -/
lemma methodCands_pairwise (slides : List Slide) (fig : Figure) :
    (methodCands slides fig).Pairwise (fun p q => p.1 < q.1) := by
  unfold methodCands
  rw [List.pairwise_map]
  exact List.Pairwise.filter _ (enum_pairwise_fst slides)

/-! ## Generic lemmas about the stateful loops -/

/-- An invariant preserved by every step of an `Option`-valued fold is
preserved by the whole fold. -/
lemma foldlM_option_inv {σ α : Type} (P : σ → Prop) (step : σ → α → Option σ) :
    ∀ (l : List α), (∀ s a, a ∈ l → P s → ∀ s', step s a = some s' → P s') →
      ∀ s s', P s → l.foldlM step s = some s' → P s' := by
  intro l
  induction l with
  | nil =>
    intro _ s s' hp h
    simp only [List.foldlM_nil] at h
    cases h
    exact hp
  | cons a l ih =>
    intro hstep s s' hp h
    rw [List.foldlM_cons] at h
    cases hsa : step s a with
    | none => rw [hsa] at h; simp at h
    | some s1 =>
      rw [hsa] at h
      exact ih (fun s a ha => hstep s a (List.mem_cons_of_mem _ ha)) s1 s'
        (hstep s a (List.mem_cons_self a l) hp s1 hsa) h

/-- An `Option`-valued fold whose steps always succeed succeeds. -/
lemma foldlM_option_isSome {σ α : Type} (step : σ → α → Option σ) :
    ∀ (l : List α) (s : σ), (∀ s a, a ∈ l → (step s a).isSome) →
      (l.foldlM step s).isSome := by
  intro l
  induction l with
  | nil => intro s _; simp
  | cons a l ih =>
    intro s hstep
    rw [List.foldlM_cons]
    cases hsa : step s a with
    | none =>
      have := hstep s a (List.mem_cons_self a l)
      rw [hsa] at this
      cases this
    | some s1 =>
      exact ih s1 (fun s a ha => hstep s a (List.mem_cons_of_mem _ ha))

/-! ## Lemmas about `updateAt` and `refIds` -/

/-- `updateAt` preserves the length. -/
lemma updateAt_length {α : Type} (f : α → α) :
    ∀ (l : List α) (i : ℕ), (updateAt i f l).length = l.length := by
  intro l
  induction l with
  | nil => intro i; cases i <;> rfl
  | cons x xs ih =>
    intro i
    cases i with
    | zero => rfl
    | succ n => simp only [updateAt, List.length_cons, ih]

/-- `updateAt` at an out-of-range index is the identity. -/
lemma updateAt_of_le {α : Type} (f : α → α) :
    ∀ (l : List α) (i : ℕ), l.length ≤ i → updateAt i f l = l := by
  intro l
  induction l with
  | nil => intro i _; cases i <;> rfl
  | cons x xs ih =>
    intro i h
    cases i with
    | zero => simp at h
    | succ n =>
      have : xs.length ≤ n := by simpa using h
      simp [updateAt, ih n this]

/-- `updateAt` at an in-range index splits the list around the updated
element. -/
lemma updateAt_eq {α : Type} (f : α → α) :
    ∀ (l : List α) (i : ℕ) (h : i < l.length),
      updateAt i f l = l.take i ++ f (l.get ⟨i, h⟩) :: l.drop (i + 1) := by
  intro l
  induction l with
  | nil => intro i h; simp at h
  | cons x xs ih =>
    intro i h
    cases i with
    | zero => simp [updateAt]
    | succ n =>
      have hn : n < xs.length := by simpa using h
      simp [updateAt, ih n hn]

/-- Any list splits around its `i`-th element. -/
lemma self_eq_take_cons_drop {α : Type} (l : List α) (i : ℕ) (h : i < l.length) :
    l = l.take i ++ l.get ⟨i, h⟩ :: l.drop (i + 1) := by
  conv_lhs => rw [← List.take_append_drop i l]
  congr 1
  rw [List.drop_eq_getElem_cons h]
  simp

/-- `refIds` distributes over append. -/
lemma refIds_append (l1 l2 : List Slide) : refIds (l1 ++ l2) = refIds l1 ++ refIds l2 := by
  simp [refIds, List.filterMap_append]

/-- `refIds` of a cons whose head carries a reference. -/
lemma refIds_cons_some {s : Slide} {r : FigRef} (h : s.figure_reference = some r)
    (sl : List Slide) : refIds (s :: sl) = r.id :: refIds sl := by
  simp [refIds, List.filterMap_cons, h]

/-- `refIds` of a cons whose head carries no reference. -/
lemma refIds_cons_none {s : Slide} (h : s.figure_reference = none) (sl : List Slide) :
    refIds (s :: sl) = refIds sl := by
  simp [refIds, List.filterMap_cons, h]

/-- The referenced ids of a list split around index `i`. -/
lemma refIds_split (sl : List Slide) (i : ℕ) (h : i < sl.length) :
    refIds sl = refIds (sl.take i) ++ refIds (sl.get ⟨i, h⟩ :: sl.drop (i + 1)) := by
  conv_lhs => rw [self_eq_take_cons_drop sl i h]
  rw [refIds_append]

/-- Assigning a figure to the slide at index `i` adds `fr.id` to the
referenced ids and removes at most the overwritten one. -/
lemma refIds_updateAt_subset (fr : FigRef) (sl : List Slide) (i : ℕ) :
    ∀ x ∈ refIds (updateAt i (assignFig fr) sl), x = fr.id ∨ x ∈ refIds sl := by
  intro x hx
  by_cases h : i < sl.length
  · rw [updateAt_eq (assignFig fr) sl i h] at hx
    rw [refIds_append, refIds_cons_some (show (assignFig fr (sl.get ⟨i, h⟩)).figure_reference =
      some fr from rfl)] at hx
    rw [refIds_split sl i h]
    rcases List.mem_append.1 hx with hx | hx
    · exact Or.inr (List.mem_append.2 (Or.inl hx))
    · rcases List.mem_cons.1 hx with rfl | hx
      · exact Or.inl rfl
      · refine Or.inr (List.mem_append.2 (Or.inr ?_))
        cases hr : (sl.get ⟨i, h⟩).figure_reference with
        | none => rw [refIds_cons_none hr]; exact hx
        | some r => rw [refIds_cons_some hr]; exact List.mem_cons_of_mem _ hx
  · rw [updateAt_of_le (assignFig fr) sl i (le_of_not_lt h)] at hx
    exact Or.inr hx

/-- Assigning a fresh figure id keeps the referenced ids duplicate-free. -/
lemma refIds_updateAt_nodup (fr : FigRef) (sl : List Slide) (i : ℕ)
    (hnodup : (refIds sl).Nodup) (hnew : fr.id ∉ refIds sl) :
    (refIds (updateAt i (assignFig fr) sl)).Nodup := by
  by_cases h : i < sl.length
  · rw [updateAt_eq (assignFig fr) sl i h]
    rw [refIds_append, refIds_cons_some (show (assignFig fr (sl.get ⟨i, h⟩)).figure_reference =
      some fr from rfl)]
    have hmid : List.Sublist (refIds (sl.drop (i + 1)))
        (refIds (sl.get ⟨i, h⟩ :: sl.drop (i + 1))) := by
      cases hr : (sl.get ⟨i, h⟩).figure_reference with
      | none => rw [refIds_cons_none hr]
      | some r => rw [refIds_cons_some hr]; exact List.sublist_cons_self _ _
    have hsub : List.Sublist (refIds (sl.take i) ++ fr.id :: refIds (sl.drop (i + 1)))
        (refIds (sl.take i) ++ fr.id :: refIds (sl.get ⟨i, h⟩ :: sl.drop (i + 1))) :=
      List.Sublist.append_left (List.Sublist.cons₂ _ hmid) _
    apply List.Sublist.nodup hsub
    rw [refIds_split sl i h] at hnodup hnew
    rw [List.nodup_append] at hnodup ⊢
    refine ⟨hnodup.1, ?_, ?_⟩
    · rw [List.nodup_cons]
      exact ⟨fun hc => hnew (List.mem_append.2 (Or.inr hc)), hnodup.2.1⟩
    · intro x hxa hxb
      rcases List.mem_cons.1 hxb with rfl | hc
      · exact hnew (List.mem_append.2 (Or.inl hxa))
      · exact hnodup.2.2 hxa hc
  · rw [updateAt_of_le (assignFig fr) sl i (le_of_not_lt h)]
    exact hnodup

/-! ## The score only depends on title and content -/

/-- The classification-relevant part of a slide: the two fields the scoring
functions read. -/
def slideCore (s : Slide) : Option String × Option (List String) := (s.title, s.content)

/-- Slides with the same title and content have the same text. -/
lemma slideText_eq_of_core {s s' : Slide} (h : slideCore s = slideCore s') :
    slideText s = slideText s' := by
  have ht : s.title = s'.title := congrArg Prod.fst h
  have hc : s.content = s'.content := congrArg Prod.snd h
  rw [slideText, slideText, ht, hc]

/-- Slides with the same title and content classify identically. -/
lemma classify_eq_of_core {s s' : Slide} (h : slideCore s = slideCore s') :
    classify_slide_type s = classify_slide_type s' := by
  rw [classify_slide_type, classify_slide_type, slideText_eq_of_core h]

/-- Slides with the same title and content score identically. -/
lemma score_eq_of_core {s s' : Slide} (h : slideCore s = slideCore s') (f : Figure) :
    calculate_compatibility_score s f = calculate_compatibility_score s' f := by
  rw [calculate_compatibility_score, calculate_compatibility_score,
    slideText_eq_of_core h, classify_eq_of_core h]

/-- Assigning a figure does not change title or content. -/
lemma slideCore_assignFig (fr : FigRef) (s : Slide) :
    slideCore (assignFig fr s) = slideCore s := rfl

/-- The reset does not change title or content. -/
lemma slideCore_resetStep (used : List String) (s : Slide) :
    slideCore (resetStep used s) = slideCore s := by
  simp only [resetStep]
  split <;> rfl

/-- `updateAt` with a function preserving `g` preserves the image under `g`. -/
lemma map_updateAt {α β : Type} (g : α → β) (f : α → α) (hf : ∀ x, g (f x) = g x) :
    ∀ (l : List α) (i : ℕ), (updateAt i f l).map g = l.map g := by
  intro l
  induction l with
  | nil => intro i; cases i <;> rfl
  | cons x xs ih =>
    intro i
    cases i with
    | zero => simp [updateAt, hf]
    | succ n => simp [updateAt, ih]

/-- The reset preserves titles and contents. -/
lemma map_core_reset (used : List String) (sl : List Slide) :
    (sl.map (resetStep used)).map slideCore = sl.map slideCore := by
  rw [List.map_map]
  exact List.map_congr_left (fun s _ => slideCore_resetStep used s)

/-- Every phase-2 candidate value is the score of some current slide. -/
lemma eligibleCands_score {sl : List Slide} {fig : Figure} {p : ℕ × ℚ}
    (hp : p ∈ eligibleCands sl fig) :
    ∃ s ∈ sl, p.2 = calculate_compatibility_score s fig := by
  rcases p with ⟨i, b⟩
  rcases mem_eligibleCands.1 hp with ⟨h, _, hscore⟩
  exact ⟨sl.get ⟨i, h⟩, List.get_mem sl i h, hscore.symm⟩

/-- Slides drawn from lists with equal cores have matching cores in the other
list. -/
lemma exists_core_of_mem {sl slides : List Slide} (h : sl.map slideCore = slides.map slideCore)
    {s' : Slide} (hs : s' ∈ sl) : ∃ s ∈ slides, slideCore s' = slideCore s := by
  have hmem : slideCore s' ∈ slides.map slideCore := h ▸ List.mem_map_of_mem _ hs
  rcases List.mem_map.1 hmem with ⟨s, hmem', heq⟩
  exact ⟨s, hmem', heq.symm⟩

/-! ## Case analysis of the loop bodies -/

/-- Inversion for one phase-1 iteration: either nothing was selected and the
state is unchanged, or the selected slide received the figure and the figure
id was marked used. -/
lemma phase1Step_inv {fig : Figure} {st st' : List Slide × List String}
    (h : phase1Step fig st = some st') :
    st' = st ∨
    ∃ i b cap, selectArchSlide st.1 fig st.2 = (some i, b) ∧ fig.caption = some cap ∧
      st' = (updateAt i (assignFig ⟨fig.id, cap, fig.filename.getD "", fig.path.getD ""⟩) st.1,
        fig.id :: st.2) := by
  rw [phase1Step] at h
  rcases hsel : selectArchSlide st.1 fig st.2 with ⟨o, b⟩
  rw [hsel] at h
  cases o with
  | none => exact Or.inl (Option.some.inj h).symm
  | some i =>
    cases hcap : fig.caption with
    | none => rw [hcap] at h; cases h
    | some cap =>
      rw [hcap] at h
      exact Or.inr ⟨i, b, cap, rfl, rfl, (Option.some.inj h).symm⟩

/-- Inversion for one phase-2 iteration. -/
lemma phase2Step_inv {fig : Figure} {st st' : List Slide × List String}
    (h : phase2Step fig st = some st') :
    st' = st ∨
    (fig.id ∉ st.2 ∧
      ∃ i b cap, selectSlideForFigure st.1 fig = (some i, b) ∧ fig.caption = some cap ∧
        st' = (updateAt i (assignFig ⟨fig.id, cap, fig.filename.getD "", fig.path.getD ""⟩) st.1,
          fig.id :: st.2)) := by
  rw [phase2Step] at h
  by_cases hu : fig.id ∈ st.2
  · rw [if_pos hu] at h
    exact Or.inl (Option.some.inj h).symm
  · rw [if_neg hu] at h
    rcases hsel : selectSlideForFigure st.1 fig with ⟨o, b⟩
    rw [hsel] at h
    cases o with
    | none => exact Or.inl (Option.some.inj h).symm
    | some i =>
      cases hcap : fig.caption with
      | none => rw [hcap] at h; cases h
      | some cap =>
        rw [hcap] at h
        exact Or.inr ⟨hu, i, b, cap, rfl, rfl, (Option.some.inj h).symm⟩

/-- `optimize_figure_assignment` on a nonempty figure list is the composition
of the two phase folds around the reset. -/
lemma optimize_eq_bind (slides : List Slide) (figures : List Figure)
    (hne : figures.isEmpty = false) :
    optimize_figure_assignment slides figures =
      ((detect_architecture_figures figures).foldlM (fun st fig => phase1Step fig st)
        (slides, ([] : List String))).bind (fun st1 =>
        (figures.foldlM (fun st fig => phase2Step fig st)
          (st1.1.map (resetStep st1.2), st1.2)).bind (fun st2 => some st2.1)) := by
  rw [optimize_figure_assignment, hne]
  rfl

/-- Split a successful run of the assigner into its two phases. -/
lemma optimize_destruct {slides : List Slide} {figures : List Figure} {out : List Slide}
    (hne : figures.isEmpty = false)
    (h : optimize_figure_assignment slides figures = some out) :
    ∃ st1 st2 : List Slide × List String,
      (detect_architecture_figures figures).foldlM (fun st fig => phase1Step fig st)
        (slides, ([] : List String)) = some st1 ∧
      figures.foldlM (fun st fig => phase2Step fig st)
        (st1.1.map (resetStep st1.2), st1.2) = some st2 ∧
      out = st2.1 := by
  rw [optimize_eq_bind slides figures hne] at h
  rcases Option.bind_eq_some.1 h with ⟨st1, h1, h⟩
  rcases Option.bind_eq_some.1 h with ⟨st2, h2, h⟩
  exact ⟨st1, st2, h1, h2, (Option.some.inj h).symm⟩

/-! ## The one-to-one invariant of the assignment loops -/

/-- The invariant threaded through both phases: titles/contents are unchanged,
the referenced figure ids are duplicate-free, every referenced id has been
marked used, and every used id belongs to the figure list. -/
def AssignInv (slides : List Slide) (figIds : List String)
    (st : List Slide × List String) : Prop :=
  st.1.map slideCore = slides.map slideCore ∧
  (refIds st.1).Nodup ∧
  (∀ x ∈ refIds st.1, x ∈ st.2) ∧
  (∀ x ∈ st.2, x ∈ figIds)

/-- The reset never invents a reference: it keeps or clears each slide's. -/
lemma resetStep_ref (used : List String) (s : Slide) :
    (resetStep used s).figure_reference = s.figure_reference ∨
    (resetStep used s).figure_reference = none := by
  simp only [resetStep]
  split
  · exact Or.inl rfl
  · exact Or.inr rfl

/-- The reset only removes referenced ids. -/
lemma refIds_reset_sublist (used : List String) (sl : List Slide) :
    List.Sublist (refIds (sl.map (resetStep used))) (refIds sl) := by
  induction sl with
  | nil => simp [refIds]
  | cons s xs ih =>
    rw [List.map_cons]
    rcases resetStep_ref used s with hkeep | hdrop
    · cases hr : s.figure_reference with
      | none =>
        rw [refIds_cons_none (hkeep.trans hr), refIds_cons_none hr]
        exact ih
      | some r =>
        rw [refIds_cons_some (hkeep.trans hr), refIds_cons_some hr]
        exact List.Sublist.cons₂ _ ih
    · rw [refIds_cons_none hdrop]
      cases hr : s.figure_reference with
      | none => rw [refIds_cons_none hr]; exact ih
      | some r => rw [refIds_cons_some hr]; exact ih.trans (List.sublist_cons_self _ _)

/-- A phase-1 iteration preserves the invariant. -/
lemma phase1_preserves (slides : List Slide) (figIds : List String)
    {st st' : List Slide × List String} {fig : Figure} (hfig : fig.id ∈ figIds)
    (hinv : AssignInv slides figIds st) (h : phase1Step fig st = some st') :
    AssignInv slides figIds st' := by
  rcases phase1Step_inv h with rfl | ⟨i, b, cap, hsel, hcap, rfl⟩
  · exact hinv
  · obtain ⟨hcore, hnodup, hsub, hused⟩ := hinv
    have hnotused : fig.id ∉ st.2 := by
      intro hmem
      have hnone := selectArchSlide_used st.1 fig st.2 hmem
      rw [hnone] at hsel
      simp at hsel
    have hnotref : fig.id ∉ refIds st.1 := fun hc => hnotused (hsub _ hc)
    refine ⟨?_, ?_, ?_, ?_⟩
    · rw [map_updateAt slideCore _ (slideCore_assignFig _) st.1 i]
      exact hcore
    · exact refIds_updateAt_nodup _ st.1 i hnodup hnotref
    · intro x hx
      rcases refIds_updateAt_subset _ st.1 i x hx with rfl | hx
      · exact List.mem_cons_self _ _
      · exact List.mem_cons_of_mem _ (hsub x hx)
    · intro x hx
      rcases List.mem_cons.1 hx with rfl | hx
      · exact hfig
      · exact hused x hx

/-- A phase-2 iteration preserves the invariant. -/
lemma phase2_preserves (slides : List Slide) (figIds : List String)
    {st st' : List Slide × List String} {fig : Figure} (hfig : fig.id ∈ figIds)
    (hinv : AssignInv slides figIds st) (h : phase2Step fig st = some st') :
    AssignInv slides figIds st' := by
  rcases phase2Step_inv h with rfl | ⟨hnotused, i, b, cap, hsel, hcap, rfl⟩
  · exact hinv
  · obtain ⟨hcore, hnodup, hsub, hused⟩ := hinv
    have hnotref : fig.id ∉ refIds st.1 := fun hc => hnotused (hsub _ hc)
    refine ⟨?_, ?_, ?_, ?_⟩
    · rw [map_updateAt slideCore _ (slideCore_assignFig _) st.1 i]
      exact hcore
    · exact refIds_updateAt_nodup _ st.1 i hnodup hnotref
    · intro x hx
      rcases refIds_updateAt_subset _ st.1 i x hx with rfl | hx
      · exact List.mem_cons_self _ _
      · exact List.mem_cons_of_mem _ (hsub x hx)
    · intro x hx
      rcases List.mem_cons.1 hx with rfl | hx
      · exact hfig
      · exact hused x hx

/-- The reset preserves the invariant. -/
lemma reset_preserves (slides : List Slide) (figIds : List String)
    {st : List Slide × List String} (hinv : AssignInv slides figIds st) :
    AssignInv slides figIds (st.1.map (resetStep st.2), st.2) := by
  obtain ⟨hcore, hnodup, hsub, hused⟩ := hinv
  have hsl : List.Sublist (refIds (st.1.map (resetStep st.2))) (refIds st.1) :=
    refIds_reset_sublist _ _
  exact ⟨by rw [map_core_reset]; exact hcore, hsl.nodup hnodup,
    fun x hx => hsub x (hsl.subset hx), hused⟩

/-- Slides carrying no reference contribute no referenced ids. -/
lemma refIds_eq_nil {sl : List Slide} (h : ∀ s ∈ sl, s.figure_reference = none) :
    refIds sl = [] := by
  rw [refIds, List.filterMap_eq_nil]
  intro s hs
  rw [h s hs]
  rfl

/-- A successful run of the assigner satisfies the invariant. -/
lemma optimize_inv {slides : List Slide} {figures : List Figure} {out : List Slide}
    (hclean : ∀ s ∈ slides, s.figure_reference = none)
    (hne : figures.isEmpty = false)
    (hout : optimize_figure_assignment slides figures = some out) :
    ∃ used : List String, AssignInv slides (figures.map Figure.id) (out, used) := by
  rcases optimize_destruct hne hout with ⟨st1, st2, h1, h2, rfl⟩
  have hInv0 : AssignInv slides (figures.map Figure.id) (slides, []) := by
    refine ⟨rfl, ?_, ?_, ?_⟩
    · rw [refIds_eq_nil hclean]; exact List.nodup_nil
    · intro x hx; rw [refIds_eq_nil hclean] at hx; cases hx
    · intro x hx; cases hx
  have hInv1 : AssignInv slides (figures.map Figure.id) st1 := by
    refine foldlM_option_inv _ _ (detect_architecture_figures figures) ?_ _ _ hInv0 h1
    intro st fig hfig hinv st' hstep
    have hfid : fig.id ∈ figures.map Figure.id :=
      List.mem_map_of_mem _ ((List.mem_filter.1 hfig).1)
    exact phase1_preserves slides _ hfid hinv hstep
  have hInv1' : AssignInv slides (figures.map Figure.id) (st1.1.map (resetStep st1.2), st1.2) :=
    reset_preserves slides _ hInv1
  have hInv2 : AssignInv slides (figures.map Figure.id) st2 := by
    refine foldlM_option_inv _ _ figures ?_ _ _ hInv1' h2
    intro st fig hfig hinv st' hstep
    exact phase2_preserves slides _ (List.mem_map_of_mem _ hfig) hinv hstep
  exact ⟨st2.2, hInv2⟩

/-- C1: on figure-free input slides and pairwise-distinct figure ids, the
output of `optimize_figure_assignment` is a partial one-to-one matching: the
referenced figure ids are pairwise distinct, each slide carries at most one
reference, and the number of referenced figures is at most
`min slides.length figures.length`. -/
theorem claim_C1 (slides : List Slide) (figures : List Figure) (out : List Slide)
    (hclean : ∀ s ∈ slides, s.includes_figure = none ∧ s.figure_reference = none)
    (hids : (figures.map Figure.id).Nodup)
    (hout : optimize_figure_assignment slides figures = some out) :
    (refIds out).Nodup ∧
    (∀ s ∈ out, ∀ r1 r2, s.figure_reference = some r1 → s.figure_reference = some r2 → r1 = r2) ∧
    (refIds out).length ≤ min slides.length figures.length := by
  have hone : ∀ s ∈ out, ∀ r1 r2, s.figure_reference = some r1 → s.figure_reference = some r2 →
      r1 = r2 := by
    intro s _ r1 r2 h1 h2
    rw [h1] at h2
    exact Option.some.inj h2
  by_cases hfe : figures.isEmpty = true
  · rw [optimize_figure_assignment, if_pos hfe] at hout
    obtain rfl : slides = out := Option.some.inj hout
    have hnil : refIds slides = [] := refIds_eq_nil (fun s hs => (hclean s hs).2)
    rw [hnil]
    exact ⟨List.nodup_nil, hone, by simp⟩
  · have hne : figures.isEmpty = false := by
      cases h : figures.isEmpty
      · rfl
      · exact absurd h hfe
    rcases optimize_inv (fun s hs => (hclean s hs).2) hne hout with ⟨used, hcore, hnodup, hsub, hused⟩
    refine ⟨hnodup, hone, le_min ?_ ?_⟩
    · have hlen : out.length = slides.length := by
        have := congrArg List.length hcore
        simpa using this
      calc (refIds out).length ≤ out.length := List.length_filterMap_le _ _
        _ = slides.length := hlen
    · have hsubids : ∀ x ∈ refIds out, x ∈ figures.map Figure.id :=
        fun x hx => hused x (hsub x hx)
      have h1 : (refIds out).toFinset.card = (refIds out).length :=
        List.toFinset_card_of_nodup hnodup
      have h2 : (refIds out).toFinset ⊆ (figures.map Figure.id).toFinset := by
        intro x hx
        exact List.mem_toFinset.2 (hsubids x (List.mem_toFinset.1 hx))
      calc (refIds out).length = (refIds out).toFinset.card := h1.symm
        _ ≤ (figures.map Figure.id).toFinset.card := Finset.card_le_card h2
        _ ≤ (figures.map Figure.id).length := List.toFinset_card_le _
        _ = figures.length := List.length_map _ _

/-- Witness for C1: a concrete run assigning the single figure. -/
theorem claim_C1_witness :
    (refIds [Slide.mk (some "method") none (some true)
        (some (FigRef.mk "A" "framework" "" ""))]).Nodup ∧
    (refIds [Slide.mk (some "method") none (some true)
        (some (FigRef.mk "A" "framework" "" ""))]).length ≤ min 1 1 := by
  have h := claim_C1 [Slide.mk (some "method") none none none]
    [Figure.mk "A" (some "framework") none none none]
    [Slide.mk (some "method") none (some true) (some (FigRef.mk "A" "framework" "" ""))]
    (by decide) (by decide) (by with_unfolding_all rfl)
  exact ⟨h.1, by simpa using h.2.2⟩

/-- C5: with an empty figure list the assigner is a no-op that does not
raise: it returns the input slides unchanged (so no assignment fields are
added to any slide).  This is the early return at lines 230-232. -/
theorem claim_C5 (slides : List Slide) :
    optimize_figure_assignment slides [] = some slides := rfl

/-- C9 (failing input): `_extract_important_terms` upper-cases the whole text
before matching the uppercase-acronym regex, so the ordinary lower-case word
`"cat"` — not hyphenated and not in the domain vocabulary — is returned as a
term, contradicting the claim that such words are excluded and the code's own
comment that this rule collects 2-6 letter uppercase acronyms. -/
theorem claim_C9_failing : "cat" ∈ extract_important_terms "cat" := by decide

/-- C4 (counterexample): a figure without a `'caption'` key that is selected
for assignment makes `optimize_figure_assignment` raise a `KeyError`
(modelled as `none`): the figure here is an architecture figure via its
description, is selected in phase 1, and then `arch_fig['caption']` fails. -/
theorem claim_C4_counterexample :
    optimize_figure_assignment [Slide.mk (some "method") none none none]
      [Figure.mk "A" none (some "framework") none none] = none := by
  with_unfolding_all rfl

/-- A phase-1 iteration cannot fail when the figure has a caption. -/
lemma phase1Step_isSome {fig : Figure} (st : List Slide × List String)
    (hcap : fig.caption.isSome) : (phase1Step fig st).isSome := by
  rw [phase1Step]
  rcases hsel : selectArchSlide st.1 fig st.2 with ⟨o, b⟩
  cases o with
  | none => rfl
  | some i =>
    rcases Option.isSome_iff_exists.1 hcap with ⟨cap, hc⟩
    rw [hc]
    rfl

/-- A phase-2 iteration cannot fail when the figure has a caption. -/
lemma phase2Step_isSome {fig : Figure} (st : List Slide × List String)
    (hcap : fig.caption.isSome) : (phase2Step fig st).isSome := by
  rw [phase2Step]
  by_cases hu : fig.id ∈ st.2
  · rw [if_pos hu]; rfl
  · rw [if_neg hu]
    rcases hsel : selectSlideForFigure st.1 fig with ⟨o, b⟩
    cases o with
    | none => rfl
    | some i =>
      rcases Option.isSome_iff_exists.1 hcap with ⟨cap, hc⟩
      rw [hc]
      rfl

/-- C4 (amended): `optimize_figure_assignment` never raises on type-valid
input **provided every figure has a `'caption'` key**; all other optional
fields (`description`, `filename`, `path`, slide `title`/`content`,
assignment fields) may be absent.  The original claim fails because
`figure['caption']` (lines 276 and 315) is a direct key access: see
`claim_C4_counterexample`. -/
theorem claim_C4_amended (slides : List Slide) (figures : List Figure)
    (hcap : ∀ f ∈ figures, f.caption.isSome) :
    (optimize_figure_assignment slides figures).isSome := by
  by_cases hfe : figures.isEmpty = true
  · rw [optimize_figure_assignment, if_pos hfe]
    rfl
  · have hne : figures.isEmpty = false := eq_false_of_ne_true hfe
    rw [optimize_eq_bind slides figures hne]
    have h1 : ((detect_architecture_figures figures).foldlM (fun st fig => phase1Step fig st)
        (slides, ([] : List String))).isSome := by
      apply foldlM_option_isSome
      intro st fig hfig
      exact phase1Step_isSome st (hcap fig ((List.mem_filter.1 hfig).1))
    rcases Option.isSome_iff_exists.1 h1 with ⟨st1, hst1⟩
    rw [hst1, Option.some_bind]
    have h2 : (figures.foldlM (fun st fig => phase2Step fig st)
        (st1.1.map (resetStep st1.2), st1.2)).isSome := by
      apply foldlM_option_isSome
      intro st fig hfig
      exact phase2Step_isSome st (hcap fig hfig)
    rcases Option.isSome_iff_exists.1 h2 with ⟨st2, hst2⟩
    rw [hst2, Option.some_bind]
    rfl

/-- Witness for the amended C4: captions present, slides missing every other
optional field, a successful run. -/
theorem claim_C4_witness :
    (optimize_figure_assignment [Slide.mk none none none none]
      [Figure.mk "A" (some "framework") none none none]).isSome :=
  claim_C4_amended [Slide.mk none none none none]
    [Figure.mk "A" (some "framework") none none none] (by decide)

/-- A selected greedy maximum is a candidate and exceeds the threshold. -/
lemma greedyMax_some_mem {cands : List (ℕ × ℚ)} {init : ℚ} {i : ℕ} {b : ℚ}
    (h : greedyMax cands init = (some i, b)) : init < b ∧ (i, b) ∈ cands := by
  rcases greedyMax_some h with ⟨hlt, l1, l2, hsplit, _, _⟩
  exact ⟨hlt, by rw [hsplit]; simp⟩

/-- A selected greedy maximum dominates every candidate. -/
lemma greedyMax_some_le {cands : List (ℕ × ℚ)} {init : ℚ} {i : ℕ} {b : ℚ}
    (h : greedyMax cands init = (some i, b)) : ∀ p ∈ cands, p.2 ≤ b := by
  rcases greedyMax_some h with ⟨_, l1, l2, hsplit, h1, h2⟩
  intro p hp
  rw [hsplit] at hp
  rcases List.mem_append.1 hp with hp | hp
  · exact le_of_lt (h1 p hp)
  · rcases List.mem_cons.1 hp with rfl | hp
    · exact le_refl _
    · exact h2 p hp

/-- When the candidate indices increase along the list, the greedy maximum is
the candidate of smallest index among those attaining the maximal value. -/
lemma greedyMax_first {cands : List (ℕ × ℚ)} {init : ℚ} {i : ℕ} {b : ℚ}
    (h : greedyMax cands init = (some i, b))
    (hpw : cands.Pairwise (fun p q => p.1 < q.1)) :
    ∀ p ∈ cands, p.2 = b → i ≤ p.1 := by
  rcases greedyMax_some h with ⟨_, l1, l2, hsplit, h1, h2⟩
  intro p hp hpb
  rw [hsplit] at hp hpw
  rcases List.mem_append.1 hp with hp | hp
  · exact absurd (hpb ▸ h1 p hp) (lt_irrefl b)
  · rcases List.mem_cons.1 hp with rfl | hp
    · exact le_refl _
    · exact le_of_lt (List.rel_of_pairwise_cons (List.pairwise_append.1 hpw).2.1 hp)

/-- C3 (counterexample): the claim that a slide which already received an
architecture figure in phase 1 is never considered again is false.  With the
single method slide and figure `A` alone, phase 1 assigns `A` to the slide;
adding a second architecture figure `B` makes phase 1 revisit the same slide
(no assignment check exists in lines 264-270) and overwrite the reference, so
the final output references `B` only and the earlier assignment of `A` is
lost. -/
theorem claim_C3_counterexample :
    optimize_figure_assignment [Slide.mk (some "method") none none none]
        [Figure.mk "A" (some "framework") none none none] =
      some [Slide.mk (some "method") none (some true)
        (some (FigRef.mk "A" "framework" "" ""))] ∧
    optimize_figure_assignment [Slide.mk (some "method") none none none]
        [Figure.mk "A" (some "framework") none none none,
         Figure.mk "B" (some "architecture") none none none] =
      some [Slide.mk (some "method") none (some true)
        (some (FigRef.mk "B" "architecture" "" ""))] := by
  constructor
  · with_unfolding_all rfl
  · with_unfolding_all rfl

/-- C3 (amended): in phase 1, for each architecture figure not yet used, the
candidates are exactly the slides classified `"method"` — **whether or not
they already carry an assignment** — and the figure goes to the maximum-
scoring such slide provided its score is strictly positive; a later
architecture figure can therefore overwrite an earlier phase-1 assignment on
the same slide (see `claim_C3_counterexample`). -/
theorem claim_C3_amended (slides : List Slide) (used : List String) (fig : Figure)
    (hid : fig.id ∉ used) :
    selectArchSlide slides fig used = greedyMax (methodCands slides fig) 0 ∧
    (∀ i b, selectArchSlide slides fig used = (some i, b) →
      0 < b ∧ ∃ h : i < slides.length,
        classify_slide_type (slides.get ⟨i, h⟩) = "method" ∧
        calculate_compatibility_score (slides.get ⟨i, h⟩) fig = b ∧
        ∀ j, ∀ hj : j < slides.length, classify_slide_type (slides.get ⟨j, hj⟩) = "method" →
          calculate_compatibility_score (slides.get ⟨j, hj⟩) fig ≤ b) ∧
    (∀ i b cap, selectArchSlide slides fig used = (some i, b) → fig.caption = some cap →
      phase1Step fig (slides, used) =
        some (updateAt i (assignFig ⟨fig.id, cap, fig.filename.getD "", fig.path.getD ""⟩) slides,
          fig.id :: used)) := by
  have heq := selectArchSlide_eq slides fig used hid
  refine ⟨heq, ?_, ?_⟩
  · intro i b hsel
    rw [heq] at hsel
    obtain ⟨hpos, hmem⟩ := greedyMax_some_mem hsel
    rcases mem_methodCands.1 hmem with ⟨h, hmethod, hscore⟩
    refine ⟨hpos, h, hmethod, hscore, ?_⟩
    intro j hj hmj
    exact greedyMax_some_le hsel _ (mem_methodCands.2 ⟨hj, hmj, rfl⟩)
  · intro i b cap hsel hcap
    rw [phase1Step, hsel, hcap]

/-- Witness for the amended C3: the single method slide is selected with the
strictly positive score `1/4`. -/
theorem claim_C3_witness :
    selectArchSlide [Slide.mk (some "method") none none none]
      (Figure.mk "A" (some "framework") none none none) [] = (some 0, 1/4) ∧
    (0 : ℚ) < 1/4 := by
  have hsel : selectArchSlide [Slide.mk (some "method") none none none]
      (Figure.mk "A" (some "framework") none none none) [] = (some 0, 1/4) :=
    of_decide_eq_true (by with_unfolding_all rfl)
  have h := (claim_C3_amended [Slide.mk (some "method") none none none] []
    (Figure.mk "A" (some "framework") none none none) (by decide)).2.1 0 (1/4) hsel
  exact ⟨hsel, h.1⟩

/-- C10: tie-break on the slide side is lowest-index-wins.  In phase 2 the
selected slide is unassigned, scores strictly above `MIN_COMPATIBILITY_SCORE`,
dominates every unassigned slide, and among unassigned slides attaining the
same maximal score it has the smallest index (the strict `>` comparison keeps
the earliest maximum); likewise in phase 1 over the method-typed slides with
threshold `0`. -/
theorem claim_C10 (slides : List Slide) (fig : Figure) :
    (∀ i b, selectSlideForFigure slides fig = (some i, b) →
      MIN_COMPATIBILITY_SCORE < b ∧ ∃ h : i < slides.length,
        ¬(slides.get ⟨i, h⟩).includes_figure.getD false ∧
        calculate_compatibility_score (slides.get ⟨i, h⟩) fig = b ∧
        ∀ j, ∀ hj : j < slides.length, ¬(slides.get ⟨j, hj⟩).includes_figure.getD false →
          calculate_compatibility_score (slides.get ⟨j, hj⟩) fig ≤ b ∧
          (calculate_compatibility_score (slides.get ⟨j, hj⟩) fig = b → i ≤ j)) ∧
    (∀ used i b, fig.id ∉ used → selectArchSlide slides fig used = (some i, b) →
      0 < b ∧ ∃ h : i < slides.length,
        classify_slide_type (slides.get ⟨i, h⟩) = "method" ∧
        calculate_compatibility_score (slides.get ⟨i, h⟩) fig = b ∧
        ∀ j, ∀ hj : j < slides.length, classify_slide_type (slides.get ⟨j, hj⟩) = "method" →
          calculate_compatibility_score (slides.get ⟨j, hj⟩) fig ≤ b ∧
          (calculate_compatibility_score (slides.get ⟨j, hj⟩) fig = b → i ≤ j)) := by
  constructor
  · intro i b hsel
    rw [selectSlideForFigure_eq] at hsel
    obtain ⟨hpos, hmem⟩ := greedyMax_some_mem hsel
    rcases mem_eligibleCands.1 hmem with ⟨h, helig, hscore⟩
    refine ⟨hpos, h, helig, hscore, ?_⟩
    intro j hj hej
    refine ⟨greedyMax_some_le hsel _ (mem_eligibleCands.2 ⟨hj, hej, rfl⟩), ?_⟩
    intro htie
    exact greedyMax_first hsel (eligibleCands_pairwise slides fig) _
      (mem_eligibleCands.2 ⟨hj, hej, rfl⟩) htie
  · intro used i b hid hsel
    rw [selectArchSlide_eq slides fig used hid] at hsel
    obtain ⟨hpos, hmem⟩ := greedyMax_some_mem hsel
    rcases mem_methodCands.1 hmem with ⟨h, hmethod, hscore⟩
    refine ⟨hpos, h, hmethod, hscore, ?_⟩
    intro j hj hmj
    refine ⟨greedyMax_some_le hsel _ (mem_methodCands.2 ⟨hj, hmj, rfl⟩), ?_⟩
    intro htie
    exact greedyMax_first hsel (methodCands_pairwise slides fig) _
      (mem_methodCands.2 ⟨hj, hmj, rfl⟩) htie

/-- Witness for C10: two identical method slides tie in phase 1 at score
`1/4` and the first (index `0`) wins; phase 2 on a high-scoring pair selects
the single unassigned slide with score `3/4` above the threshold. -/
theorem claim_C10_witness :
    selectArchSlide [Slide.mk (some "method") none none none,
        Slide.mk (some "method") none none none]
      (Figure.mk "A" (some "framework") none none none) [] = (some 0, 1/4) ∧
    selectSlideForFigure [Slide.mk (some "method framework model") none none none]
      (Figure.mk "A" (some "framework model") none none none) = (some 0, 3/4) ∧
    MIN_COMPATIBILITY_SCORE < 3/4 := by
  have hsel1 : selectArchSlide [Slide.mk (some "method") none none none,
      Slide.mk (some "method") none none none]
      (Figure.mk "A" (some "framework") none none none) [] = (some 0, 1/4) :=
    of_decide_eq_true (by with_unfolding_all rfl)
  have hsel2 : selectSlideForFigure [Slide.mk (some "method framework model") none none none]
      (Figure.mk "A" (some "framework model") none none none) = (some 0, 3/4) :=
    of_decide_eq_true (by with_unfolding_all rfl)
  have h := (claim_C10 [Slide.mk (some "method framework model") none none none]
    (Figure.mk "A" (some "framework model") none none none)).1 0 (3/4) hsel2
  exact ⟨hsel1, hsel2, h.1⟩

/-- With pairwise-distinct figure ids, an id determines the figure. -/
lemma figure_id_inj {figures : List Figure} (hids : (figures.map Figure.id).Nodup)
    {f g : Figure} (hf : f ∈ figures) (hg : g ∈ figures) (h : f.id = g.id) : f = g :=
  List.inj_on_of_nodup_map hids hf hg h

/-- Elements of an updated list are old elements or the updated image of an
old element. -/
lemma mem_updateAt {α : Type} (g : α → α) :
    ∀ (l : List α) (i : ℕ) (x : α), x ∈ updateAt i g l → x ∈ l ∨ ∃ y ∈ l, x = g y := by
  intro l
  induction l with
  | nil => intro i x hx; cases i <;> cases hx
  | cons a as ih =>
    intro i x hx
    cases i with
    | zero =>
      rcases List.mem_cons.1 hx with rfl | hx
      · exact Or.inr ⟨a, List.mem_cons_self _ _, rfl⟩
      · exact Or.inl (List.mem_cons_of_mem _ hx)
    | succ n =>
      rcases List.mem_cons.1 hx with rfl | hx
      · exact Or.inl (List.mem_cons_self _ _)
      · rcases ih n x hx with h | ⟨y, hy, hxy⟩
        · exact Or.inl (List.mem_cons_of_mem _ h)
        · exact Or.inr ⟨y, List.mem_cons_of_mem _ hy, hxy⟩

/-- A reference surviving the reset was marked used. -/
lemma resetStep_ref_mem {used : List String} {s : Slide} {r : FigRef}
    (h : (resetStep used s).figure_reference = some r) : r.id ∈ used := by
  by_cases hmem : (match s.figure_reference with | some r => r.id | none => "") ∈ used
  · have hs : resetStep used s = s := by
      simp only [resetStep]
      rw [if_pos hmem]
    rw [hs] at h
    rw [h] at hmem
    exact hmem
  · have hs : (resetStep used s).figure_reference = none := by
      simp only [resetStep]
      rw [if_neg hmem]
    rw [hs] at h
    cases h

/-- C2 (counterexample): the claim fails as stated, because phase 1 has no
`0.25` threshold.  The figure `"f1"` with caption `"system"` is detected as
an architecture figure, its compatibility score against the only slide is
`3/20 < 1/4`, yet phase 1 assigns it (any positive score suffices there). -/
theorem claim_C2_counterexample :
    calculate_compatibility_score (Slide.mk (some "method") none none none)
        (Figure.mk "f1" (some "system") none none none) < MIN_COMPATIBILITY_SCORE ∧
    optimize_figure_assignment [Slide.mk (some "method") none none none]
        [Figure.mk "f1" (some "system") none none none] =
      some [Slide.mk (some "method") none (some true)
        (some (FigRef.mk "f1" "system" "" ""))] := by
  constructor
  · exact of_decide_eq_true (by with_unfolding_all rfl)
  · with_unfolding_all rfl

/-- C2 (amended): a figure that is **not detected as an architecture figure**
and whose compatibility score against every slide is below
`MIN_COMPATIBILITY_SCORE = 0.25` is left unassigned (no output slide
references its id), for figure lists with pairwise-distinct ids.  The
original claim omitted the non-architecture condition: see
`claim_C2_counterexample`. -/
theorem claim_C2_amended (slides : List Slide) (figures : List Figure) (F : Figure)
    (out : List Slide)
    (hmem : F ∈ figures)
    (hids : (figures.map Figure.id).Nodup)
    (harch : F ∉ detect_architecture_figures figures)
    (hscore : ∀ s ∈ slides, calculate_compatibility_score s F < MIN_COMPATIBILITY_SCORE)
    (hout : optimize_figure_assignment slides figures = some out) :
    ∀ s ∈ out, ∀ r, s.figure_reference = some r → r.id ≠ F.id := by
  have hne : figures.isEmpty = false := by
    cases figures
    · cases hmem
    · rfl
  rcases optimize_destruct hne hout with ⟨st1, st2, h1, h2, rfl⟩
  have P1 : st1.1.map slideCore = slides.map slideCore ∧ F.id ∉ st1.2 := by
    refine foldlM_option_inv
      (fun st => st.1.map slideCore = slides.map slideCore ∧ F.id ∉ st.2) _
      (detect_architecture_figures figures) ?_ _ _ ⟨rfl, by simp⟩ h1
    rintro st fig hfig ⟨hcore, hF⟩ st' hstep
    rcases phase1Step_inv hstep with rfl | ⟨i, b, cap, hsel, hcap, rfl⟩
    · exact ⟨hcore, hF⟩
    · constructor
      · rw [map_updateAt slideCore _ (slideCore_assignFig _) st.1 i]
        exact hcore
      · intro hc
        rcases List.mem_cons.1 hc with hc | hc
        · have hfigF : fig = F :=
            figure_id_inj hids ((List.mem_filter.1 hfig).1) hmem hc.symm
          exact harch (hfigF ▸ hfig)
        · exact hF hc
  have hreset : ∀ s ∈ st1.1.map (resetStep st1.2), ∀ r, s.figure_reference = some r →
      r.id ≠ F.id := by
    intro s hs r hr
    rcases List.mem_map.1 hs with ⟨s0, _, rfl⟩
    intro hid
    exact P1.2 (hid ▸ resetStep_ref_mem hr)
  have hcore1 : (st1.1.map (resetStep st1.2)).map slideCore = slides.map slideCore := by
    rw [map_core_reset]
    exact P1.1
  have P2 : st2.1.map slideCore = slides.map slideCore ∧ F.id ∉ st2.2 ∧
      ∀ s ∈ st2.1, ∀ r, s.figure_reference = some r → r.id ≠ F.id := by
    refine foldlM_option_inv (fun st => st.1.map slideCore = slides.map slideCore ∧
      F.id ∉ st.2 ∧ ∀ s ∈ st.1, ∀ r, s.figure_reference = some r → r.id ≠ F.id) _
      figures ?_ _ _ ⟨hcore1, P1.2, hreset⟩ h2
    rintro st fig hfig ⟨hcore, hF, hrefs⟩ st' hstep
    rcases phase2Step_inv hstep with rfl | ⟨hnotused, i, b, cap, hsel, hcap, rfl⟩
    · exact ⟨hcore, hF, hrefs⟩
    · by_cases hFid : fig.id = F.id
      · exfalso
        have hfigF : fig = F := figure_id_inj hids hfig hmem hFid
        rw [selectSlideForFigure_eq] at hsel
        obtain ⟨hpos, hmem'⟩ := greedyMax_some_mem hsel
        rcases eligibleCands_score hmem' with ⟨s', hs', hval⟩
        rcases exists_core_of_mem hcore hs' with ⟨s0, hs0, hcoreeq⟩
        have hlt := hscore s0 hs0
        rw [← score_eq_of_core hcoreeq F] at hlt
        rw [hfigF] at hval
        have : b < MIN_COMPATIBILITY_SCORE := by
          calc b = calculate_compatibility_score s' F := hval
            _ < MIN_COMPATIBILITY_SCORE := hlt
        exact absurd hpos (not_lt.2 (le_of_lt this))
      · refine ⟨?_, ?_, ?_⟩
        · rw [map_updateAt slideCore _ (slideCore_assignFig _) st.1 i]
          exact hcore
        · intro hc
          rcases List.mem_cons.1 hc with hc | hc
          · exact hFid hc.symm
          · exact hF hc
        · intro s hs r hr
          rcases mem_updateAt _ st.1 i s hs with hs' | ⟨y, hy, rfl⟩
          · exact hrefs s hs' r hr
          · have hrr : r = ⟨fig.id, cap, fig.filename.getD "", fig.path.getD ""⟩ :=
              (Option.some.inj hr).symm
            rw [hrr]
            exact hFid
  exact P2.2.2

/-- Witness for the amended C2: a non-architecture figure scoring `0` against
the only slide is dropped; the output slide carries no reference. -/
theorem claim_C2_witness :
    ∃ out, optimize_figure_assignment [Slide.mk (some "method") none none none]
        [Figure.mk "fx" (some "cat photo") none none none] = some out ∧
      ∀ s ∈ out, ∀ r, s.figure_reference = some r → r.id ≠ "fx" := by
  refine ⟨[Slide.mk (some "method") none (some false) none], by with_unfolding_all rfl, ?_⟩
  have h := claim_C2_amended [Slide.mk (some "method") none none none]
    [Figure.mk "fx" (some "cat photo") none none none]
    (Figure.mk "fx" (some "cat photo") none none none)
    [Slide.mk (some "method") none (some false) none]
    (by decide) (by decide)
    (by intro hc; exact absurd hc (of_decide_eq_true (by with_unfolding_all rfl)))
    (of_decide_eq_true (by with_unfolding_all rfl))
    (by with_unfolding_all rfl)
  exact h

/-! ## The exclusion penalty (C6) -/

/-- The compatibility score with the semantic-exclusion penalty term omitted:
the sum of the four positive contributions of
`calculate_compatibility_score`. -/
def scoreSansExclusions (s : Slide) (f : Figure) : ℚ :=
  let slide_text := slideText s
  let figure_text := figText f
  let ft := classify_figure_type f
  semanticScore slide_text figure_text
    + type_compatibility (classify_slide_type s, ft.1) * ft.2
    + overlapScore slide_text figure_text
    + archBonus (classify_slide_type s) figure_text

/-- The score is the clamp of the exclusion-free sum minus `0.3` per matching
triple. -/
lemma calc_eq_sans (s : Slide) (f : Figure) :
    calculate_compatibility_score s f =
      min (scoreSansExclusions s f
        - 0.3 * (exclusionCount (slideText s) (figText f) : ℚ)) 1 := by
  simp only [calculate_compatibility_score, scoreSansExclusions]
  congr 1
  ring

/-- The semantic contribution lies in `[0, 0.4]`. -/
lemma semanticScore_bounds (st ft : String) :
    0 ≤ semanticScore st ft ∧ semanticScore st ft ≤ 0.4 := by
  rw [semanticScore]
  split
  · constructor
    · apply le_min
      · positivity
      · norm_num
    · exact min_le_right _ _
  · norm_num

/-- The generic overlap contribution lies in `[0, 0.2]`. -/
lemma overlapScore_bounds (st ft : String) :
    0 ≤ overlapScore st ft ∧ overlapScore st ft ≤ 0.2 := by
  rw [overlapScore]
  split
  · constructor
    · apply le_min
      · positivity
      · norm_num
    · exact min_le_right _ _
  · norm_num

/-- The type-compatibility table only holds values in `[0, 0.3]`. -/
lemma type_compatibility_bounds (p : String × String) :
    0 ≤ type_compatibility p ∧ type_compatibility p ≤ 0.3 := by
  rw [type_compatibility]
  split_ifs <;> norm_num

/-- The classification confidence lies in `[0, 1]`. -/
lemma confidence_bounds (f : Figure) :
    0 ≤ (classify_figure_type f).2 ∧ (classify_figure_type f).2 ≤ 1 := by
  simp only [classify_figure_type]
  split
  · next h =>
    exact ⟨le_min (div_nonneg (le_of_lt h) (by norm_num)) zero_le_one, min_le_right _ _⟩
  · exact ⟨le_refl 0, zero_le_one⟩

/-- The architecture bonus lies in `[0, 0.1]`. -/
lemma archBonus_bounds (t ft : String) : 0 ≤ archBonus t ft ∧ archBonus t ft ≤ 0.1 := by
  rw [archBonus]
  split_ifs <;> norm_num

/-- The exclusion-free sum never exceeds `1`. -/
lemma scoreSansExclusions_le_one (s : Slide) (f : Figure) : scoreSansExclusions s f ≤ 1 := by
  have h1 := semanticScore_bounds (slideText s) (figText f)
  have h2 := type_compatibility_bounds (classify_slide_type s, (classify_figure_type f).1)
  have h3 := confidence_bounds f
  have h4 := overlapScore_bounds (slideText s) (figText f)
  have h5 := archBonus_bounds (classify_slide_type s) (figText f)
  have hmul : type_compatibility (classify_slide_type s, (classify_figure_type f).1) *
      (classify_figure_type f).2 ≤ 0.3 := by
    calc type_compatibility (classify_slide_type s, (classify_figure_type f).1) *
        (classify_figure_type f).2 ≤ 0.3 * 1 := mul_le_mul h2.2 h3.2 h3.1 (by norm_num)
      _ = 0.3 := by norm_num
  simp only [scoreSansExclusions]
  linarith [h1.2, h4.2, h5.2, hmul]

/-- Under the C6 hypotheses the first exclusion triple matches. -/
lemma exclusionCount_pos {st ft : String}
    (h1 : containsStr st "ablation" = true)
    (h2 : containsStr ft "workflow" = true)
    (h3 : containsStr ft "evolution" = true) :
    1 ≤ exclusionCount st ft := by
  simp only [exclusionCount, semantic_exclusions, List.filter_cons, h1, h2, h3,
    Bool.and_self, Bool.and_true, if_true, List.length_cons]
  omega

/-- C6: when the slide text contains `"ablation"` and the figure text contains
both `"workflow"` and `"evolution"`, the score equals the exclusion-free sum
minus `0.3` per matching triple with no clamping (the penalty keeps the value
strictly below the `min _ 1` clamp, and the result is not floored at `0`); at
least one triple matches, and when it is the only matching triple the score is
exactly `0.3` less than the same pair's score with the penalty absent. -/
theorem claim_C6 (s : Slide) (f : Figure)
    (h1 : containsStr (slideText s) "ablation" = true)
    (h2 : containsStr (figText f) "workflow" = true)
    (h3 : containsStr (figText f) "evolution" = true) :
    calculate_compatibility_score s f =
      scoreSansExclusions s f - 0.3 * (exclusionCount (slideText s) (figText f) : ℚ) ∧
    1 ≤ exclusionCount (slideText s) (figText f) ∧
    (exclusionCount (slideText s) (figText f) = 1 →
      calculate_compatibility_score s f = scoreSansExclusions s f - 0.3) := by
  have hk := exclusionCount_pos h1 h2 h3
  have hkq : (1 : ℚ) ≤ (exclusionCount (slideText s) (figText f) : ℚ) := by exact_mod_cast hk
  have hle := scoreSansExclusions_le_one s f
  have hmul : (0.3 : ℚ) * 1 ≤ 0.3 * (exclusionCount (slideText s) (figText f) : ℚ) :=
    mul_le_mul_of_nonneg_left hkq (by norm_num)
  have hmin : scoreSansExclusions s f
      - 0.3 * (exclusionCount (slideText s) (figText f) : ℚ) ≤ 1 := by
    linarith
  have heq : calculate_compatibility_score s f =
      scoreSansExclusions s f - 0.3 * (exclusionCount (slideText s) (figText f) : ℚ) := by
    rw [calc_eq_sans, min_eq_left hmin]
  refine ⟨heq, hk, ?_⟩
  intro hone
  rw [heq, hone]
  norm_num

/-- Witness for C6: the pair `"ablation"` / `"workflow evolution"` matches
exactly one triple, the score is exactly `0.3` below the exclusion-free sum,
and the final value is the negative number `-3/10` (no floor at `0`). -/
theorem claim_C6_witness :
    calculate_compatibility_score (Slide.mk (some "ablation") none none none)
        (Figure.mk "f" (some "workflow evolution") none none none) =
      scoreSansExclusions (Slide.mk (some "ablation") none none none)
        (Figure.mk "f" (some "workflow evolution") none none none) - 0.3 ∧
    calculate_compatibility_score (Slide.mk (some "ablation") none none none)
        (Figure.mk "f" (some "workflow evolution") none none none) = -(3/10) := by
  have h := claim_C6 (Slide.mk (some "ablation") none none none)
    (Figure.mk "f" (some "workflow evolution") none none none)
    (of_decide_eq_true (by with_unfolding_all rfl))
    (of_decide_eq_true (by with_unfolding_all rfl))
    (of_decide_eq_true (by with_unfolding_all rfl))
  exact ⟨h.2.2 (of_decide_eq_true (by with_unfolding_all rfl)),
    of_decide_eq_true (by with_unfolding_all rfl)⟩

/-! ## classify_slide_type refines the specified argmax (C7) -/

/-- The five slide tags in declaration order. -/
def slideTagOrder : List String := ["background", "method", "result", "ablation", "conclusion"]

/-- The keyword count of a slide for one tag (`0` for unknown tags). -/
def slideTypeScore (s : Slide) (t : String) : ℕ :=
  match slide_type_keywords.lookup t with
  | some kws => keywordCount kws (slideText s)
  | none => 0

/-- The slide classifier as the spec words it: lower-cased title plus joined
content, count each tag's keywords as substrings, take the maximal count, and
return the first tag (in declaration order) attaining it; if no keyword
matches at all, return `"method"`. -/
def slideTypeSpec (s : Slide) : String :=
  let m := (slideTagOrder.map (slideTypeScore s)).foldr max 0
  if m = 0 then "method"
  else ((((slide_type_keywords.map (fun p => (p.1, keywordCount p.2 (slideText s)))).filter
    (fun p => p.2 == m)).map Prod.fst).headD "method")

/-- The source classifier with the five keyword counts abstracted. -/
def classifyCore (cb cm cr ca cc : ℕ) : String :=
  let scores := ([("background", cb), ("method", cm), ("result", cr), ("ablation", ca),
    ("conclusion", cc)]).filterMap (fun p => if 0 < p.2 then some p else none)
  match argmaxFirst scores with
  | some q => q.1
  | none => "method"

/-- The specified classifier with the five keyword counts abstracted. -/
def specCore (cb cm cr ca cc : ℕ) : String :=
  let m := [cb, cm, cr, ca, cc].foldr max 0
  if m = 0 then "method"
  else (((([("background", cb), ("method", cm), ("result", cr), ("ablation", ca),
    ("conclusion", cc)]).filter (fun p => p.2 == m)).map Prod.fst).headD "method")

/-- Keyword counts are bounded by the keyword list length. -/
lemma keywordCount_le (kws : List String) (text : String) :
    keywordCount kws text ≤ kws.length :=
  List.length_filter_le _ _

/-- On every reachable count vector the two abstract classifiers agree. -/
lemma core_eq : ∀ cb < 6, ∀ cm < 7, ∀ cr < 6, ∀ ca < 5, ∀ cc < 5,
    classifyCore cb cm cr ca cc = specCore cb cm cr ca cc := by decide

/-- C7: `classify_slide_type` is exactly the specified classifier: it counts,
for each of the five tags in declaration order, how many of the tag's
keywords occur as substrings of the lower-cased title-plus-content text,
returns the tag with the highest count (ties broken by
first-declared-tag order), and returns `"method"` when no keyword matches;
it is total by construction. -/
theorem claim_C7 (s : Slide) : classify_slide_type s = slideTypeSpec s := by
  have h1 : classify_slide_type s = classifyCore
      (keywordCount ["background", "introduction", "motivation", "problem", "challenge"]
        (slideText s))
      (keywordCount ["methodology", "approach", "method", "algorithm", "architecture",
        "framework"] (slideText s))
      (keywordCount ["result", "experiment", "evaluation", "performance", "comparison"]
        (slideText s))
      (keywordCount ["ablation", "analysis", "component", "impact"] (slideText s))
      (keywordCount ["conclusion", "future", "limitation", "summary"] (slideText s)) := rfl
  have h2 : slideTypeSpec s = specCore
      (keywordCount ["background", "introduction", "motivation", "problem", "challenge"]
        (slideText s))
      (keywordCount ["methodology", "approach", "method", "algorithm", "architecture",
        "framework"] (slideText s))
      (keywordCount ["result", "experiment", "evaluation", "performance", "comparison"]
        (slideText s))
      (keywordCount ["ablation", "analysis", "component", "impact"] (slideText s))
      (keywordCount ["conclusion", "future", "limitation", "summary"] (slideText s)) := rfl
  rw [h1, h2]
  apply core_eq <;> exact Nat.lt_succ_of_le (keywordCount_le _ _)

/-! ## classify_figure_type selects the best composite score (C8) -/

/-- The keyword score of a figure for one category. -/
def catScore (f : Figure) (cfg : String × List String × ℕ) : ℕ :=
  keywordCount cfg.2.1 (figText f)

/-- The composite score of a figure for one category:
`keyword_score + priority * 0.1`. -/
def catComposite (f : Figure) (cfg : String × List String × ℕ) : ℚ :=
  (catScore f cfg : ℚ) + (cfg.2.2 : ℚ) * 0.1

/-- The lexicographic order on the loop accumulator of `classify_figure_type`:
best score first, then best priority. -/
def accLe (a b : Option String × ℚ × ℕ) : Prop :=
  a.2.1 < b.2.1 ∨ (a.2.1 = b.2.1 ∧ a.2.2 ≤ b.2.2)

/-- The accumulator dominates a category: no keyword match, or a strictly
smaller composite, or an equal composite with no larger priority. -/
def figDom (text : String) (cfg : String × List String × ℕ)
    (acc : Option String × ℚ × ℕ) : Prop :=
  keywordCount cfg.2.1 text = 0 ∨
  (keywordCount cfg.2.1 text : ℚ) + (cfg.2.2 : ℚ) * 0.1 < acc.2.1 ∨
  ((keywordCount cfg.2.1 text : ℚ) + (cfg.2.2 : ℚ) * 0.1 = acc.2.1 ∧ cfg.2.2 ≤ acc.2.2)

lemma accLe_refl (a : Option String × ℚ × ℕ) : accLe a a := Or.inr ⟨rfl, le_refl _⟩

lemma accLe_trans {a b c : Option String × ℚ × ℕ} (h1 : accLe a b) (h2 : accLe b c) :
    accLe a c := by
  rcases h1 with h1 | ⟨h1, h1'⟩ <;> rcases h2 with h2 | ⟨h2, h2'⟩
  · exact Or.inl (lt_trans h1 h2)
  · exact Or.inl (h2 ▸ h1)
  · exact Or.inl (h1 ▸ h2)
  · exact Or.inr ⟨h1.trans h2, h1'.trans h2'⟩

/-- One loop iteration never decreases the accumulator. -/
lemma figStep_mono (text : String) (acc : Option String × ℚ × ℕ)
    (cfg : String × List String × ℕ) : accLe acc (figStep text acc cfg) := by
  simp only [figStep]
  split
  · split
    · next h =>
      rcases h with h | ⟨h, h'⟩
      · exact Or.inl h
      · exact Or.inr ⟨h.symm, le_of_lt h'⟩
    · exact accLe_refl _
  · exact accLe_refl _

/-- One loop iteration dominates its own category. -/
lemma figStep_dom (text : String) (acc : Option String × ℚ × ℕ)
    (cfg : String × List String × ℕ) : figDom text cfg (figStep text acc cfg) := by
  simp only [figStep]
  split
  · next hkw =>
    split
    · exact Or.inr (Or.inr ⟨rfl, le_refl _⟩)
    · next hcond =>
      push_neg at hcond
      rcases lt_or_eq_of_le hcond.1 with h | h
      · exact Or.inr (Or.inl h)
      · exact Or.inr (Or.inr ⟨h, hcond.2 h⟩)
  · next hkw =>
    exact Or.inl (Nat.eq_zero_of_not_pos hkw)

/-- Domination is stable under growing the accumulator. -/
lemma figDom_mono {text : String} {cfg : String × List String × ℕ}
    {a b : Option String × ℚ × ℕ} (h : figDom text cfg a) (hab : accLe a b) :
    figDom text cfg b := by
  rcases h with h | h | ⟨h, h'⟩
  · exact Or.inl h
  · rcases hab with hab | ⟨hab, _⟩
    · exact Or.inr (Or.inl (lt_trans h hab))
    · exact Or.inr (Or.inl (hab ▸ h))
  · rcases hab with hab | ⟨hab, hab'⟩
    · exact Or.inr (Or.inl (h ▸ hab))
    · exact Or.inr (Or.inr ⟨h.trans hab, h'.trans hab'⟩)

/-- The whole loop never decreases the accumulator. -/
lemma figFold_mono (text : String) :
    ∀ (l : List (String × List String × ℕ)) (acc : Option String × ℚ × ℕ),
      accLe acc (l.foldl (figStep text) acc) := by
  intro l
  induction l with
  | nil => intro acc; exact accLe_refl _
  | cons c cs ih =>
    intro acc
    rw [List.foldl_cons]
    exact accLe_trans (figStep_mono text acc c) (ih _)

/-- The final accumulator dominates every category of the list. -/
lemma figFold_dom (text : String) :
    ∀ (l : List (String × List String × ℕ)) (acc : Option String × ℚ × ℕ),
      ∀ cfg ∈ l, figDom text cfg (l.foldl (figStep text) acc) := by
  intro l
  induction l with
  | nil => intro acc cfg h; cases h
  | cons c cs ih =>
    intro acc cfg hc
    rw [List.foldl_cons]
    rcases List.mem_cons.1 hc with rfl | hc
    · exact figDom_mono (figStep_dom text acc cfg) (figFold_mono text cs _)
    · exact ih _ cfg hc

/-- The final accumulator is the initial one or the entry of a matched
category. -/
lemma figFold_shape (text : String) :
    ∀ (l : List (String × List String × ℕ)) (acc : Option String × ℚ × ℕ),
      l.foldl (figStep text) acc = acc ∨
      ∃ cfg ∈ l, 0 < keywordCount cfg.2.1 text ∧
        l.foldl (figStep text) acc =
          (some cfg.1, (keywordCount cfg.2.1 text : ℚ) + (cfg.2.2 : ℚ) * 0.1, cfg.2.2) := by
  intro l
  induction l with
  | nil => intro acc; exact Or.inl rfl
  | cons c cs ih =>
    intro acc
    rw [List.foldl_cons]
    have hstep : figStep text acc c = acc ∨
        (0 < keywordCount c.2.1 text ∧ figStep text acc c =
          (some c.1, (keywordCount c.2.1 text : ℚ) + (c.2.2 : ℚ) * 0.1, c.2.2)) := by
      simp only [figStep]
      split
      · next h =>
        split
        · exact Or.inr ⟨h, rfl⟩
        · exact Or.inl rfl
      · exact Or.inl rfl
    rcases hstep with hstep | ⟨hkw, hstep⟩
    · rw [hstep]
      rcases ih acc with h | ⟨cfg, hcfg, hkw', h⟩
      · exact Or.inl h
      · exact Or.inr ⟨cfg, List.mem_cons_of_mem _ hcfg, hkw', h⟩
    · rw [hstep]
      rcases ih _ with h | ⟨cfg, hcfg, hkw', h⟩
      · exact Or.inr ⟨c, List.mem_cons_self _ _, hkw, h⟩
      · exact Or.inr ⟨cfg, List.mem_cons_of_mem _ hcfg, hkw', h⟩

/-- A matched category has a composite score of at least `1`. -/
lemma catComposite_pos {f : Figure} {cfg : String × List String × ℕ}
    (h : 0 < catScore f cfg) : (0 : ℚ) < catComposite f cfg := by
  rw [catComposite]
  have h1 : (1 : ℚ) ≤ (catScore f cfg : ℚ) := by exact_mod_cast h
  have h2 : (0 : ℚ) ≤ (cfg.2.2 : ℚ) * 0.1 := by positivity
  linarith

/-- C8: `classify_figure_type` returns `("method_detail", 0)` when no
category's keyword matches; otherwise it returns the name of a matched
category whose composite score `keyword_score + priority * 0.1` dominates
every matched category (with ties broken towards the higher priority) and the
confidence `min (composite / 3) 1`. -/
theorem claim_C8 (f : Figure) :
    ((∀ cfg ∈ figure_type_keywords, catScore f cfg = 0) →
      classify_figure_type f = ("method_detail", 0)) ∧
    ((∃ cfg ∈ figure_type_keywords, 0 < catScore f cfg) →
      ∃ cfg ∈ figure_type_keywords, 0 < catScore f cfg ∧
        (classify_figure_type f).1 = cfg.1 ∧
        (∀ c ∈ figure_type_keywords, 0 < catScore f c →
          catComposite f c < catComposite f cfg ∨
          (catComposite f c = catComposite f cfg ∧ c.2.2 ≤ cfg.2.2)) ∧
        (classify_figure_type f).2 = min (catComposite f cfg / 3) 1) := by
  constructor
  · intro hall
    rcases figFold_shape (figText f) figure_type_keywords (none, 0, 0) with h | ⟨cfg, hcfg, hkw, h⟩
    · rw [classify_figure_type, h]
      norm_num
    · exact absurd (hall cfg hcfg) (Nat.pos_iff_ne_zero.1 hkw)
  · intro hex
    rcases figFold_shape (figText f) figure_type_keywords (none, 0, 0) with h | ⟨cfg, hcfg, hkw, h⟩
    · exfalso
      rcases hex with ⟨cfg, hcfg, hkw⟩
      have hdom := figFold_dom (figText f) figure_type_keywords (none, 0, 0) cfg hcfg
      rw [h] at hdom
      have hpos := @catComposite_pos f cfg hkw
      rw [catComposite, catScore] at hpos
      rcases hdom with hdom | hdom | ⟨hdom, _⟩
      · exact absurd hdom (Nat.pos_iff_ne_zero.1 hkw)
      · exact absurd hpos (not_lt.2 (le_of_lt hdom))
      · exact absurd hpos (not_lt.2 (le_of_eq hdom))
    · refine ⟨cfg, hcfg, hkw, ?_, ?_, ?_⟩
      · rw [classify_figure_type, h]
        rfl
      · intro c hc hkc
        have hdom := figFold_dom (figText f) figure_type_keywords (none, 0, 0) c hc
        rw [h] at hdom
        rcases hdom with hdom | hdom | ⟨hdom, hdom'⟩
        · exact absurd hdom (Nat.pos_iff_ne_zero.1 hkc)
        · exact Or.inl (by rw [catComposite, catScore, catComposite, catScore]; exact hdom)
        · exact Or.inr ⟨by rw [catComposite, catScore, catComposite, catScore]; exact hdom, hdom'⟩
      · have hpos := @catComposite_pos f cfg hkw
        rw [classify_figure_type, h]
        rw [catComposite, catScore] at hpos
        simp only [if_pos hpos]
        rw [catComposite, catScore]

/-- Witness for C8, the spec's own scenario: the caption
`"Comparison of performance across baselines"` matches two keywords of
`results_performance`, giving the composite `2.4` and confidence `0.8`. -/
theorem claim_C8_witness :
    ∃ cfg ∈ figure_type_keywords, 0 < catScore
        (Figure.mk "f" (some "Comparison of performance across baselines") none none none) cfg ∧
      (classify_figure_type
        (Figure.mk "f" (some "Comparison of performance across baselines") none none none)).1 =
        cfg.1 ∧
      (∀ c ∈ figure_type_keywords, 0 < catScore
          (Figure.mk "f" (some "Comparison of performance across baselines") none none none) c →
        catComposite
          (Figure.mk "f" (some "Comparison of performance across baselines") none none none) c <
          catComposite
            (Figure.mk "f" (some "Comparison of performance across baselines") none none none)
            cfg ∨
        (catComposite
            (Figure.mk "f" (some "Comparison of performance across baselines") none none none) c =
          catComposite
            (Figure.mk "f" (some "Comparison of performance across baselines") none none none)
            cfg ∧ c.2.2 ≤ cfg.2.2)) ∧
      (classify_figure_type
        (Figure.mk "f" (some "Comparison of performance across baselines") none none none)).2 =
        min (catComposite
          (Figure.mk "f" (some "Comparison of performance across baselines") none none none)
          cfg / 3) 1 :=
  (claim_C8 (Figure.mk "f" (some "Comparison of performance across baselines") none none none)).2
    (by decide)
